import Mathlib

/-!
Verification model of `src/tools/process_jsonl.py` (AltMorph JSONL batch driver).

The script reads a JSONL file, sends each record's `text` field to the external
`process_sentence` generator and writes the record back with an added `alt`
field.  The model below embeds:

* the JSON values the script manipulates (`Json`), with Python `dict`
  assignment semantics (`insertAssign`: overwrite in place, append when new);
* the serializer used at line 132, mirroring
  `json.dumps(data, ensure_ascii=False)` with CPython's default separators
  `", "` / `": "` and its escape table (`Json.dumps`);
* the decoder used at line 95, mirroring `json.loads` (`Json.loads`).  JSON
  numbers are modelled as integers: floating-point literals are rejected by
  the model rather than parsed, the one place the embedding narrows the format
  (no claim concerns float-valued fields);
* the per-line loop body (lines 88-148) as `processLine`, the whole loop as
  `runLines`, the function `process_jsonl_file` (startup checks at lines 76-80,
  summary at 150-151), and the `main` wrapper (lines 202-224) as `main_run`.

The external generator `process_sentence` (imported from `altmorph.py`) is a
parameter `gen : String → Except GenError Json`: the language, credential,
timeout, worker-count and inclusion-flag arguments the script forwards to it
unchanged are absorbed into that parameter; `Except.error` stands for the call
raising an exception, which line 144 catches.  File IO is modelled by passing
the input's lines and returning the output's lines: the `Except` result of
`process_jsonl_file` distinguishes a startup failure raised before the output
file is opened (lines 76-80) from a run in which it was opened and written.
-/

/-- A JSON value as produced by `json.loads`: objects keep key order, the way
Python dicts do.  Numbers are modelled as integers (see the header note). -/
inductive Json where
  | null : Json
  | bool (b : Bool) : Json
  | num (n : Int) : Json
  | str (s : String) : Json
  | arr (elems : List Json) : Json
  | obj (members : List (String × Json)) : Json

/-- Key membership in an ordered member list (Python `key in dict`). -/
def hasKey (k : String) : List (String × Json) → Bool
  | [] => false
  | (k', _) :: tl => if k' = k then true else hasKey k tl

/-- Key lookup in an ordered member list (Python `dict[key]` on a present key). -/
def lookupKey (ms : List (String × Json)) (k : String) : Option Json :=
  match ms with
  | [] => none
  | (k', v) :: tl => if k' = k then some v else lookupKey tl k

/-- Python `dict[key] = value`: overwrite in place when the key is present
(its position is kept), append at the end when it is new.  This is the
augmentation step `data["alt"] = alt_text` at line 129. -/
def insertAssign (ms : List (String × Json)) (k : String) (v : Json) :
    List (String × Json) :=
  match ms with
  | [] => [(k, v)]
  | (k', v') :: tl => if k' = k then (k', v) :: tl else (k', v') :: insertAssign tl k v

/-- The keys of a member list, in order. -/
def keysOf (ms : List (String × Json)) : List String := ms.map (fun kv => kv.1)

/-- Fold a parsed member list into a dict, left to right, as CPython's
`dict(pairs)` does when the object decoder finishes: on a duplicate key the
first occurrence keeps its position and the last value wins. -/
def insFold : List (String × Json) → List (String × Json) → List (String × Json)
  | acc, [] => acc
  | acc, (k, v) :: tl => insFold (insertAssign acc k v) tl

mutual
/-- A value every Python object satisfies: dict keys are distinct at every
nesting level.  `Json` is broader than Python values (a raw member list can
repeat a key), so theorems about values that came out of the running script
carry this invariant. -/
def Json.wf : Json → Bool
  | .null => true
  | .bool _ => true
  | .num _ => true
  | .str _ => true
  | .arr es => wfElems es
  | .obj ms => wfMembers ms
/-- All elements well-formed. -/
def wfElems : List Json → Bool
  | [] => true
  | e :: tl => Json.wf e && wfElems tl
/-- Keys distinct and all values well-formed. -/
def wfMembers : List (String × Json) → Bool
  | [] => true
  | (k, v) :: tl => !hasKey k tl && Json.wf v && wfMembers tl
end

/-- The character for digit `n < 16` (lowercase hex, as CPython's `\uXXXX`
escapes and decimal `str(int)` both use). -/
def digitCh (n : Nat) : Char :=
  if n = 0 then '0' else if n = 1 then '1' else if n = 2 then '2'
  else if n = 3 then '3' else if n = 4 then '4' else if n = 5 then '5'
  else if n = 6 then '6' else if n = 7 then '7' else if n = 8 then '8'
  else if n = 9 then '9' else if n = 10 then 'a' else if n = 11 then 'b'
  else if n = 12 then 'c' else if n = 13 then 'd' else if n = 14 then 'e'
  else if n = 15 then 'f' else '0'

/-- Decimal digits of `n`, most significant first; `fuel ≥ n + 1` suffices. -/
def natDigitsAux : Nat → Nat → List Char
  | 0, _ => []
  | fuel + 1, n =>
    if n < 10 then [digitCh n]
    else natDigitsAux fuel (n / 10) ++ [digitCh (n % 10)]

/-- Decimal digits of `n`, as `str` prints a non-negative Python int. -/
def natDigits (n : Nat) : List Char := natDigitsAux (n + 1) n

/-- The characters `str(i)` prints for a Python int: optional sign, digits. -/
def intDump (i : Int) : List Char :=
  if i < 0 then '-' :: natDigits i.natAbs else natDigits i.toNat

/-- One character as `json.dumps(..., ensure_ascii=False)` emits it: only `"`,
`\` and control characters below `0x20` are escaped (CPython's `ESCAPE_DCT`);
everything else, non-ASCII included, passes through verbatim. -/
def escapeChar (c : Char) : List Char :=
  if c = '"' then ['\\', '"']
  else if c = '\\' then ['\\', '\\']
  else if c.toNat < 32 then
    if c = '\x08' then ['\\', 'b']
    else if c = '\t' then ['\\', 't']
    else if c = '\n' then ['\\', 'n']
    else if c = '\x0c' then ['\\', 'f']
    else if c = '\r' then ['\\', 'r']
    else ['\\', 'u', '0', '0', digitCh (c.toNat / 16), digitCh (c.toNat % 16)]
  else [c]

/-- A string body, escaped character by character. -/
def escChars : List Char → List Char
  | [] => []
  | c :: tl => escapeChar c ++ escChars tl

mutual
/-- Serialize one value the way `json.dumps(data, ensure_ascii=False)` does,
with CPython's default separators: `", "` between items, `": "` after keys. -/
def dumpV : Json → List Char
  | .num i => intDump i
  | .str s => '"' :: (escChars s.data ++ ['"'])
  | .arr [] => ['[', ']']
  | .arr (e :: tl) => '[' :: (dumpV e ++ dumpElems tl ++ [']'])
  | .obj [] => ['{', '}']
  | .obj (m :: tl) => '{' :: (dumpMem m ++ dumpMembers tl ++ ['}'])
  | .bool true => ['t', 'r', 'u', 'e']
  | .bool false => ['f', 'a', 'l', 's', 'e']
  | .null => ['n', 'u', 'l', 'l']
/-- The remaining array elements, each preceded by `", "`. -/
def dumpElems : List Json → List Char
  | [] => []
  | e :: tl => ',' :: ' ' :: (dumpV e ++ dumpElems tl)
/-- One `"key": value` member. -/
def dumpMem : String × Json → List Char
  | (k, v) => '"' :: (escChars k.data ++ '"' :: ':' :: ' ' :: dumpV v)
/-- The remaining object members, each preceded by `", "`. -/
def dumpMembers : List (String × Json) → List Char
  | [] => []
  | m :: tl => ',' :: ' ' :: (dumpMem m ++ dumpMembers tl)
end

/-- `json.dumps(j, ensure_ascii=False)` as a string (line 132). -/
def Json.dumps (j : Json) : String := ⟨dumpV j⟩

/-- The whitespace `json.loads` skips between tokens. -/
def isJsonWs (c : Char) : Bool := c = ' ' || c = '\t' || c = '\n' || c = '\r'

/-- Drop leading JSON whitespace. -/
def skipWs : List Char → List Char
  | [] => []
  | c :: tl => if isJsonWs c then skipWs tl else c :: tl

/-- The value of a hex digit, both cases accepted, as in `\uXXXX` escapes. -/
def hexVal (c : Char) : Option Nat :=
  if '0' ≤ c ∧ c ≤ '9' then some (c.toNat - 48)
  else if 'a' ≤ c ∧ c ≤ 'f' then some (c.toNat - 87)
  else if 'A' ≤ c ∧ c ≤ 'F' then some (c.toNat - 55)
  else none

/-- The two-character escapes `json.loads` accepts after a backslash. -/
def unescapeChar (e : Char) : Option Char :=
  if e = '"' then some '"'
  else if e = '\\' then some '\\'
  else if e = '/' then some '/'
  else if e = 'b' then some '\x08'
  else if e = 'f' then some '\x0c'
  else if e = 'n' then some '\n'
  else if e = 'r' then some '\r'
  else if e = 't' then some '\t'
  else none

/-- Parse a string body after the opening quote, undoing escapes, strict about
raw control characters the way `json.loads` is by default.  Returns the
decoded characters and the input after the closing quote. -/
def parseStringBody : List Char → Option (List Char × List Char)
  | [] => none
  | c :: cs =>
    if c = '"' then some ([], cs)
    else if c = '\\' then
      match cs with
      | [] => none
      | e :: cs1 =>
        if e = 'u' then
          match cs1 with
          | h1 :: h2 :: h3 :: h4 :: cs2 =>
            match hexVal h1, hexVal h2, hexVal h3, hexVal h4 with
            | some a, some b, some c3, some d =>
              let code := ((a * 16 + b) * 16 + c3) * 16 + d
              if Nat.isValidChar code then
                match parseStringBody cs2 with
                | some (s, r) => some (Char.ofNat code :: s, r)
                | none => none
              else none
            | _, _, _, _ => none
          | _ => none
        else
          match unescapeChar e with
          | some u =>
            match parseStringBody cs1 with
            | some (s, r) => some (u :: s, r)
            | none => none
          | none => none
    else if c.toNat < 32 then none
    else
      match parseStringBody cs with
      | some (s, r) => some (c :: s, r)
      | none => none

/-- Split a leading run of decimal digits from the input. -/
def takeDigits : List Char → List Char × List Char
  | [] => ([], [])
  | c :: cs =>
    if c.isDigit then
      match takeDigits cs with
      | (ds, r) => (c :: ds, r)
    else ([], c :: cs)

/-- The number a digit run denotes, accumulator style. -/
def digitsValAux : Nat → List Char → Nat
  | acc, [] => acc
  | acc, c :: cs => digitsValAux (acc * 10 + (c.toNat - 48)) cs

/-- The number a digit run denotes. -/
def digitsVal (ds : List Char) : Nat := digitsValAux 0 ds

/-- Finish a number after its digit run: a following `.`/`e`/`E` would make it
a float literal, which the model rejects rather than parses (header note). -/
def numTail (neg : Bool) (ds : List Char) (r : List Char) : Option (Json × List Char) :=
  match r with
  | '.' :: _ => none
  | 'e' :: _ => none
  | 'E' :: _ => none
  | _ =>
    let m : Int := (digitsVal ds : Int)
    some (.num (if neg then -m else m), r)

mutual
/-- Parse one JSON value, fuel-bounded; callers position the input at a
non-whitespace character.  Mirrors `json.loads`' scanner. -/
def parseValue : Nat → List Char → Option (Json × List Char)
  | 0, _ => none
  | fuel + 1, cs =>
    match cs with
    | 'n' :: 'u' :: 'l' :: 'l' :: r => some (.null, r)
    | 't' :: 'r' :: 'u' :: 'e' :: r => some (.bool true, r)
    | 'f' :: 'a' :: 'l' :: 's' :: 'e' :: r => some (.bool false, r)
    | '"' :: r =>
      match parseStringBody r with
      | some (chars, r2) => some (.str ⟨chars⟩, r2)
      | none => none
    | '[' :: r =>
      match skipWs r with
      | ']' :: r2 => some (.arr [], r2)
      | r2 =>
        match parseElems fuel r2 with
        | some (es, r3) => some (.arr es, r3)
        | none => none
    | '{' :: r =>
      match skipWs r with
      | '}' :: r2 => some (.obj [], r2)
      | r2 =>
        match parseMembers fuel r2 with
        | some (ms, r3) => some (.obj (insFold [] ms), r3)
        | none => none
    | '-' :: r =>
      match takeDigits r with
      | ([], _) => none
      | (d :: ds, r2) => numTail true (d :: ds) r2
    | c :: r =>
      if c.isDigit then
        match takeDigits (c :: r) with
        | (ds, r2) => numTail false ds r2
      else none
    | [] => none
/-- Parse one or more comma-separated elements up to the closing `]`. -/
def parseElems : Nat → List Char → Option (List Json × List Char)
  | 0, _ => none
  | fuel + 1, cs =>
    match parseValue fuel cs with
    | none => none
    | some (j, r) =>
      match skipWs r with
      | ',' :: r2 =>
        match parseElems fuel (skipWs r2) with
        | some (es, r3) => some (j :: es, r3)
        | none => none
      | ']' :: r2 => some ([j], r2)
      | _ => none
/-- Parse one or more `"key": value` members up to the closing `}`, returned
in source order; the caller folds them into a dict with `insFold`. -/
def parseMembers : Nat → List Char → Option (List (String × Json) × List Char)
  | 0, _ => none
  | fuel + 1, cs =>
    match cs with
    | '"' :: cs1 =>
      match parseStringBody cs1 with
      | none => none
      | some (kChars, r1) =>
        match skipWs r1 with
        | ':' :: r2 =>
          match parseValue fuel (skipWs r2) with
          | none => none
          | some (v, r3) =>
            match skipWs r3 with
            | ',' :: r4 =>
              match parseMembers fuel (skipWs r4) with
              | some (ms, r5) => some ((⟨kChars⟩, v) :: ms, r5)
              | none => none
            | '}' :: r4 => some ([(⟨kChars⟩, v)], r4)
            | _ => none
        | _ => none
    | _ => none
end

/-- `json.loads` on one line (line 95): skip surrounding whitespace, parse one
value, reject trailing data.  The fuel `s.data.length` covers any input: every
two levels of the parser consume at least one character. -/
def Json.loads (s : String) : Option Json :=
  match parseValue s.data.length (skipWs s.data) with
  | some (j, r) => if skipWs r = [] then some j else none
  | none => none

/-- The whitespace `str.strip()` removes (ASCII part; the script's inputs are
line-split, so the split newline is what matters). -/
def isPyWs (c : Char) : Bool :=
  c = ' ' || c = '\t' || c = '\n' || c = '\r' || c = '\x0b' || c = '\x0c'

/-- Python `s.strip()`: drop leading and trailing whitespace. -/
def pyStrip (s : String) : String :=
  ⟨((s.data.dropWhile isPyWs).reverse.dropWhile isPyWs).reverse⟩

/-- The truncated text the verbosity-2 progress line shows (line 111):
`text[:50]` plus an ellipsis when the text is longer. -/
def previewOf (s : String) : String :=
  s.take 50 ++ (if 50 < s.length then "..." else "")

/-- `needle` is a prefix of the input. -/
def isPrefixList : List Char → List Char → Bool
  | [], _ => true
  | _ :: _, [] => false
  | a :: as, b :: bs => (a = b) && isPrefixList as bs

/-- `needle` occurs somewhere in the input (Python `needle in str`). -/
def containsSeq (needle : List Char) : List Char → Bool
  | [] => isPrefixList needle []
  | c :: cs => isPrefixList needle (c :: cs) || containsSeq needle cs

/-- Python `"text" in s` for a string `s`: substring containment. -/
def strContainsText (s : String) : Bool := containsSeq "text".data s.data

/-- Python `"text" in data` for a list `data`: `==`-membership, true exactly
when some element is the string `"text"` (`==` with any non-str is false). -/
def elemsHaveTextStr : List Json → Bool
  | [] => false
  | .str s :: tl => (s = "text") || elemsHaveTextStr tl
  | _ :: tl => elemsHaveTextStr tl

/-- The startup failures raised before the output file is opened (lines
76-80): a missing input file, or a credential that is blank after stripping. -/
inductive StartupError where
  | fileNotFound : StartupError
  | apiKeyMissing : StartupError
deriving DecidableEq

/-- The opaque cause of a generator failure: `process_sentence` may raise any
exception; line 144 catches them all alike. -/
inductive GenError where
  | exc (message : String) : GenError
deriving DecidableEq

/-- One line the script prints to standard output, tagged by which `print`
call produced it; every print in the script goes to stdout. -/
inductive Msg where
  | warnMissingText (lineNum : Nat) : Msg
  | warnInvalidText (lineNum : Nat) : Msg
  | progressNote (lineNum : Nat) (preview : String) : Msg
  | errorInvalidJson (lineNum : Nat) : Msg
  | errorProcessing (lineNum : Nat) : Msg
  | resultNote (lineNum : Nat) (alt : Json) : Msg
  | summary (processed : Nat) (errors : Nat) : Msg
  | fatal (e : StartupError) : Msg

/-- Whether a message is the final summary line (line 151). -/
def isSummaryMsg : Msg → Bool
  | .summary _ _ => true
  | _ => false

/-- The loop state: the two counters, the output lines written so far, and the
stdout messages printed so far. -/
structure BatchAcc where
  processed : Nat
  errors : Nat
  out : List String
  msgs : List Msg

/-- One iteration of the loop body at lines 88-148, for the physical line
`raw` numbered `n` (1-based, `enumerate(infile, 1)`).

Branch map to the source:
* blank after stripping → `continue` (lines 89-91);
* `json.loads` failure → `except json.JSONDecodeError`: error counted (138-142);
* dict without `"text"` → warning, skipped, not counted (98-101);
* `"text"` value not a str, or empty after stripping → warning, skipped, not
  counted (103-107);
* generator call raises → `except Exception`: error counted (144-148);
* success → `data["alt"] = alt_text`, one line written, processed counted
  (128-136).

A decoded non-dict value runs `"text" not in data` first: on a list that is
`==`-membership and on a str substring containment (then `data["text"]`
raises `TypeError`); on a number, boolean or `None` the membership test itself
raises `TypeError`.  Either `TypeError` lands in `except Exception` (144-148),
so those branches count an error. -/
def processLine (gen : String → Except GenError Json) (verbosity : Nat)
    (n : Nat) (raw : String) (acc : BatchAcc) : BatchAcc :=
  let line := pyStrip raw
  if line = "" then acc
  else
    match Json.loads line with
    | none =>
      { acc with errors := acc.errors + 1,
                 msgs := acc.msgs ++ (if 1 ≤ verbosity then [Msg.errorInvalidJson n] else []) }
    | some data =>
      match data with
      | .obj ms =>
        match lookupKey ms "text" with
        | none =>
          { acc with msgs := acc.msgs ++ (if 1 ≤ verbosity then [Msg.warnMissingText n] else []) }
        | some t =>
          match t with
          | .str s =>
            if pyStrip s = "" then
              { acc with msgs := acc.msgs ++ (if 1 ≤ verbosity then [Msg.warnInvalidText n] else []) }
            else
              let acc1 := { acc with
                msgs := acc.msgs ++ (if 2 ≤ verbosity then [Msg.progressNote n (previewOf s)] else []) }
              match gen s with
              | .error _ =>
                { acc1 with errors := acc1.errors + 1,
                            msgs := acc1.msgs ++ (if 1 ≤ verbosity then [Msg.errorProcessing n] else []) }
              | .ok alt =>
                { acc1 with
                  processed := acc1.processed + 1,
                  out := acc1.out ++ [Json.dumps (.obj (insertAssign ms "alt" alt)) ++ "\n"],
                  msgs := acc1.msgs ++ (if 3 ≤ verbosity then [Msg.resultNote n alt] else []) }
          | _ =>
            { acc with msgs := acc.msgs ++ (if 1 ≤ verbosity then [Msg.warnInvalidText n] else []) }
      | .arr es =>
        if elemsHaveTextStr es then
          { acc with errors := acc.errors + 1,
                     msgs := acc.msgs ++ (if 1 ≤ verbosity then [Msg.errorProcessing n] else []) }
        else
          { acc with msgs := acc.msgs ++ (if 1 ≤ verbosity then [Msg.warnMissingText n] else []) }
      | .str s =>
        if strContainsText s then
          { acc with errors := acc.errors + 1,
                     msgs := acc.msgs ++ (if 1 ≤ verbosity then [Msg.errorProcessing n] else []) }
        else
          { acc with msgs := acc.msgs ++ (if 1 ≤ verbosity then [Msg.warnMissingText n] else []) }
      | _ =>
        { acc with errors := acc.errors + 1,
                   msgs := acc.msgs ++ (if 1 ≤ verbosity then [Msg.errorProcessing n] else []) }

/-- The whole loop over the input's lines, numbering from `n`. -/
def runLines (gen : String → Except GenError Json) (verbosity : Nat) :
    Nat → List String → BatchAcc → BatchAcc
  | _, [], acc => acc
  | n, raw :: rest, acc => runLines gen verbosity (n + 1) rest (processLine gen verbosity n raw acc)

/-- `process_jsonl_file` (lines 53-151).  `inputExists` abstracts
`Path(input_file).exists()`; `lines` is the input file's content when it does.
A `.error` result is a raise at line 77 or 80, before the output file is
opened; a `.ok` result is a completed run over all lines with the verbosity-1
summary appended (lines 150-151). -/
def process_jsonl_file (gen : String → Except GenError Json) (inputExists : Bool)
    (api_key : String) (verbosity : Nat) (lines : List String) :
    Except StartupError BatchAcc :=
  if inputExists = false then .error .fileNotFound
  else if pyStrip api_key = "" then .error .apiKeyMissing
  else
    let acc := runLines gen verbosity 1 lines ⟨0, 0, [], []⟩
    .ok { acc with
          msgs := acc.msgs ++ (if 1 ≤ verbosity then [Msg.summary acc.processed acc.errors] else []) }

/-- What ends up at the output path: `none` when the startup checks raised
before `open(output_file, "w")` (the file is neither created nor truncated),
`some` of the concatenated written lines once it was opened. -/
def outputFileContent : Except StartupError BatchAcc → Option String
  | .error _ => none
  | .ok acc => some (String.join acc.out)

/-- The observable outcome of `main` (lines 202-224): the process exit code
and the two standard streams.  `print` writes to stdout, so the
`except Exception` handler's `print(f"Error: {e}")` lands on stdout and the
exit code is 1; on success nothing more is printed and the code is 0. -/
structure MainResult where
  exitCode : Nat
  stdoutMsgs : List Msg
  stderrMsgs : List Msg

/-- `main` around `process_jsonl_file` (lines 202-224), interrupts aside. -/
def main_run (gen : String → Except GenError Json) (inputExists : Bool)
    (api_key : String) (verbosity : Nat) (lines : List String) : MainResult :=
  match process_jsonl_file gen inputExists api_key verbosity lines with
  | .ok acc => ⟨0, acc.msgs, []⟩
  | .error e => ⟨1, [Msg.fatal e], []⟩

/-- The error counter of a completed run, when it completed. -/
def accErrors : Except StartupError BatchAcc → Option Nat
  | .error _ => none
  | .ok acc => some acc.errors

/-- The processed counter of a completed run, when it completed. -/
def accProcessed : Except StartupError BatchAcc → Option Nat
  | .error _ => none
  | .ok acc => some acc.processed

/-- The written lines of a completed run, when it completed. -/
def accOut : Except StartupError BatchAcc → Option (List String)
  | .error _ => none
  | .ok acc => some acc.out

/-- The validity test lines 98-107 apply to the looked-up `text` field:
present, a string, and non-empty after stripping. -/
def validText : Option Json → Bool
  | some (.str s) => !(pyStrip s = "")
  | _ => false

/-- A produced output line round-trips: it decodes, and re-encoding (plus the
line's newline) gives the identical string back. -/
def roundTripLine (l : String) : Bool :=
  match Json.loads l with
  | some j => decide (Json.dumps j ++ "\n" = l)
  | none => false

/-- An output line as `processLine`'s success branch writes it: a well-formed
record augmented at `"alt"` with some generator result, serialized, newline
terminated. -/
def GoodOut (gen : String → Except GenError Json) (l : String) : Prop :=
  ∃ ms alt s, Json.wf (.obj ms) = true ∧ gen s = .ok alt ∧
    l = Json.dumps (.obj (insertAssign ms "alt" alt)) ++ "\n"

/-- A remainder that cannot extend a serialized value: empty, or starting with
a separator, a closer, or the terminating newline.  Every position `dumpV`
output is followed by qualifies. -/
def Delim : List Char → Prop
  | [] => True
  | c :: _ => c = ',' ∨ c = ']' ∨ c = '}' ∨ c = '\n'

/-! ### Dictionary lemmas -/

theorem insertAssign_idem (ms : List (String × Json)) (k : String) (v : Json) :
    insertAssign (insertAssign ms k v) k v = insertAssign ms k v := by
  induction ms with
  | nil => simp [insertAssign]
  | cons hd tl ih =>
    obtain ⟨k', v'⟩ := hd
    by_cases h : k' = k
    · simp [insertAssign, h]
    · simp [insertAssign, h, ih]

theorem insertAssign_new (ms : List (String × Json)) (k : String) (v : Json)
    (h : hasKey k ms = false) : insertAssign ms k v = ms ++ [(k, v)] := by
  induction ms with
  | nil => simp [insertAssign]
  | cons hd tl ih =>
    obtain ⟨k', v'⟩ := hd
    simp only [hasKey] at h
    by_cases hk : k' = k
    · simp [hk] at h
    · simp only [hk, if_false] at h
      simp [insertAssign, hk, ih h]

theorem lookupKey_insertAssign_ne (ms : List (String × Json)) (k : String) (v : Json)
    (a : String) (h : a ≠ k) :
    lookupKey (insertAssign ms k v) a = lookupKey ms a := by
  have hka : ¬ k = a := fun hh => h hh.symm
  induction ms with
  | nil => simp [insertAssign, lookupKey, hka]
  | cons hd tl ih =>
    obtain ⟨k', v'⟩ := hd
    by_cases hk : k' = k
    · subst hk
      simp [insertAssign, lookupKey, hka]
    · simp only [insertAssign, hk, if_false, lookupKey]
      by_cases ha : k' = a
      · simp [ha]
      · simp [ha, ih]

theorem insertAssign_keys (ms : List (String × Json)) (k : String) (v : Json) :
    keysOf (insertAssign ms k v)
      = (if hasKey k ms then keysOf ms else keysOf ms ++ [k]) := by
  induction ms with
  | nil => simp [insertAssign, hasKey, keysOf]
  | cons hd tl ih =>
    obtain ⟨k', v'⟩ := hd
    by_cases hk : k' = k
    · simp [insertAssign, hasKey, keysOf, hk]
    · by_cases ht : hasKey k tl
      · simp [insertAssign, hasKey, keysOf, hk, ht] at ih ⊢
        exact ih
      · simp [insertAssign, hasKey, keysOf, hk, ht] at ih ⊢
        exact ih

/-- C8: setting the `alt` key (line 129) is idempotent: assigning the same
result twice leaves the same mapping as assigning it once. -/
theorem C8_augment_idempotent (ms : List (String × Json)) (result : Json) :
    insertAssign (insertAssign ms "alt" result) "alt" result
      = insertAssign ms "alt" result :=
  insertAssign_idem ms "alt" result

/-! ### Startup checks and the entry point (C5, C10) -/

theorem loads_empty : Json.loads "" = none := rfl

/-- C10: the two startup checks (lines 76-80) run before `open(output_file,
"w")`: a missing input or a credential blank after stripping (so whitespace
only) raises first and the output file is never created or truncated; once
both pass, the file is opened and holds the written lines, even when every
record fails. -/
theorem C10_startup_checks_gate_output (gen : String → Except GenError Json)
    (api_key : String) (verbosity : Nat) (lines : List String) :
    outputFileContent (process_jsonl_file gen false api_key verbosity lines) = none ∧
    (pyStrip api_key = "" →
      ∀ b : Bool, outputFileContent (process_jsonl_file gen b api_key verbosity lines) = none) ∧
    (¬ pyStrip api_key = "" →
      outputFileContent (process_jsonl_file gen true api_key verbosity lines)
        = some (String.join (runLines gen verbosity 1 lines ⟨0, 0, [], []⟩).out)) := by
  refine ⟨rfl, ?_, ?_⟩
  · intro h b
    cases b
    · rfl
    · simp [process_jsonl_file, h, outputFileContent]
  · intro h
    simp [process_jsonl_file, h, outputFileContent]

theorem C10_witness :
    (outputFileContent
        (process_jsonl_file (fun _ => .ok .null) false "k" 1 ["\x7b\"text\": \"a\"\x7d"]) = none ∧
      (pyStrip "k" = "" →
        ∀ b : Bool,
          outputFileContent (process_jsonl_file (fun _ => .ok .null) b "k" 1 ["\x7b\"text\": \"a\"\x7d"]) = none) ∧
      (¬ pyStrip "k" = "" →
        outputFileContent (process_jsonl_file (fun _ => .ok .null) true "k" 1 ["\x7b\"text\": \"a\"\x7d"])
          = some (String.join
              (runLines (fun _ => .ok .null) 1 1 ["\x7b\"text\": \"a\"\x7d"] ⟨0, 0, [], []⟩).out))) ∧
    (outputFileContent (process_jsonl_file (fun _ => .ok .null) true "   " 1 ["oops"]) = none) ∧
    (outputFileContent (process_jsonl_file (fun _ => .ok .null) true "k" 1 ["oops"]) = some "") := by
  refine ⟨C10_startup_checks_gate_output (fun _ => .ok .null) "k" 1 ["\x7b\"text\": \"a\"\x7d"], ?_, ?_⟩
  · exact (C10_startup_checks_gate_output (fun _ => .ok .null) "   " 1 ["oops"]).2.1 rfl true
  · have h := (C10_startup_checks_gate_output (fun _ => .ok .null) "k" 1 ["oops"]).2.2 (by decide)
    simpa using h

/-- C5 counterexample: on a missing input file the entry point does exit with
code 1, but the failure message goes to standard output (the handler at line
223 uses `print`), while standard error stays empty — contradicting the
claim's "reporting the failure to standard error". -/
theorem C5_counterexample :
    (main_run (fun _ => .ok .null) false "k" 1 []).exitCode = 1 ∧
    (main_run (fun _ => .ok .null) false "k" 1 []).stderrMsgs = [] ∧
    (main_run (fun _ => .ok .null) false "k" 1 []).stdoutMsgs = [Msg.fatal .fileNotFound] :=
  ⟨rfl, rfl, rfl⟩

/-- C5 amended: a missing input file or a blank credential raises before any
record is read (the result does not depend on the file's lines), the entry
point exits with code 1 and reports the failure with a message on standard
output (not standard error, which stays empty); when `process_jsonl_file`
completes, the exit code is 0. -/
theorem C5_amended_exit_codes (gen : String → Except GenError Json)
    (api_key : String) (verbosity : Nat) (lines : List String) :
    (main_run gen false api_key verbosity lines
        = ⟨1, [Msg.fatal .fileNotFound], []⟩) ∧
    (∀ lines' : List String,
        process_jsonl_file gen false api_key verbosity lines
          = process_jsonl_file gen false api_key verbosity lines') ∧
    (pyStrip api_key = "" →
      main_run gen true api_key verbosity lines
          = ⟨1, [Msg.fatal .apiKeyMissing], []⟩ ∧
      ∀ lines' : List String,
        process_jsonl_file gen true api_key verbosity lines
          = process_jsonl_file gen true api_key verbosity lines') ∧
    (∀ acc : BatchAcc,
      process_jsonl_file gen true api_key verbosity lines = .ok acc →
      (main_run gen true api_key verbosity lines).exitCode = 0) := by
  refine ⟨rfl, fun _ => rfl, ?_, ?_⟩
  · intro h
    constructor
    · simp [main_run, process_jsonl_file, h]
    · intro lines'
      simp [process_jsonl_file, h]
  · intro acc h
    simp [main_run, h]

theorem C5_amended_witness :
    (main_run (fun _ => .ok .null) false "k" 1 ["\x7b\"text\": \"a\"\x7d"]
        = ⟨1, [Msg.fatal .fileNotFound], []⟩) ∧
    (main_run (fun _ => .ok .null) true " " 1 [] = ⟨1, [Msg.fatal .apiKeyMissing], []⟩) ∧
    (main_run (fun _ => .ok .null) true "k" 1 ["\x7b\"text\": \"a\"\x7d"]).exitCode = 0 := by
  refine ⟨(C5_amended_exit_codes (fun _ => .ok .null) "k" 1 ["\x7b\"text\": \"a\"\x7d"]).1,
    ((C5_amended_exit_codes (fun _ => .ok .null) " " 1 []).2.2.1 rfl).1,
    (C5_amended_exit_codes (fun _ => .ok .null) "k" 1 ["\x7b\"text\": \"a\"\x7d"]).2.2.2 _ rfl⟩

/-! ### Per-record branches of the loop body (C1-C4) -/

theorem loads_ne_empty {s : String} {j : Json} (h : Json.loads s = some j) :
    ¬ s = "" := by
  intro hs
  rw [hs, loads_empty] at h
  cases h

/-- C1 counterexample: for the record `\x7b"a": 1\x7d`, which lacks the
`text` key, the error counter stays 0 — it is not incremented to 1 as the
claim states (lines 98-101 `continue` without touching `error_count`); the
record is indeed absent from the output. -/
theorem C1_counterexample :
    accErrors (process_jsonl_file (fun _ => .ok .null) true "k" 1 ["\x7b\"a\": 1\x7d"]) = some 0 ∧
    ¬ accErrors (process_jsonl_file (fun _ => .ok .null) true "k" 1 ["\x7b\"a\": 1\x7d"]) = some 1 ∧
    accOut (process_jsonl_file (fun _ => .ok .null) true "k" 1 ["\x7b\"a\": 1\x7d"]) = some [] :=
  ⟨rfl, by decide, rfl⟩

/-- C1 amended: a record whose `text` field is missing, not a string, or
empty after trimming is skipped — no output line is written — but the error
counter is left unchanged (the code only prints a warning and `continue`s,
lines 98-107); processing then continues with the subsequent lines. -/
theorem C1_amended_skip_without_error (gen : String → Except GenError Json)
    (verbosity n : Nat) (raw : String) (acc : BatchAcc) (ms : List (String × Json))
    (hload : Json.loads (pyStrip raw) = some (.obj ms))
    (hbad : validText (lookupKey ms "text") = false) :
    (processLine gen verbosity n raw acc).errors = acc.errors ∧
    (processLine gen verbosity n raw acc).out = acc.out ∧
    (processLine gen verbosity n raw acc).processed = acc.processed ∧
    ∀ (k : Nat) (rest : List String),
      runLines gen verbosity k (raw :: rest) acc
        = runLines gen verbosity (k + 1) rest (processLine gen verbosity k raw acc) := by
  have hne : ¬ pyStrip raw = "" := loads_ne_empty hload
  have key : ∃ m : List Msg, processLine gen verbosity n raw acc = { acc with msgs := m } := by
    cases hlk : lookupKey ms "text" with
    | none =>
      exact ⟨acc.msgs ++ (if 1 ≤ verbosity then [Msg.warnMissingText n] else []),
        by simp [processLine, hne, hload, hlk]⟩
    | some t =>
      cases t with
      | str s =>
        have hs : pyStrip s = "" := by simpa [validText, hlk] using hbad
        exact ⟨acc.msgs ++ (if 1 ≤ verbosity then [Msg.warnInvalidText n] else []),
          by simp [processLine, hne, hload, hlk, hs]⟩
      | null =>
        exact ⟨acc.msgs ++ (if 1 ≤ verbosity then [Msg.warnInvalidText n] else []),
          by simp [processLine, hne, hload, hlk]⟩
      | bool b =>
        exact ⟨acc.msgs ++ (if 1 ≤ verbosity then [Msg.warnInvalidText n] else []),
          by simp [processLine, hne, hload, hlk]⟩
      | num i =>
        exact ⟨acc.msgs ++ (if 1 ≤ verbosity then [Msg.warnInvalidText n] else []),
          by simp [processLine, hne, hload, hlk]⟩
      | arr es =>
        exact ⟨acc.msgs ++ (if 1 ≤ verbosity then [Msg.warnInvalidText n] else []),
          by simp [processLine, hne, hload, hlk]⟩
      | obj mms =>
        exact ⟨acc.msgs ++ (if 1 ≤ verbosity then [Msg.warnInvalidText n] else []),
          by simp [processLine, hne, hload, hlk]⟩
  obtain ⟨m, hm⟩ := key
  rw [hm]
  exact ⟨rfl, rfl, rfl, fun k rest => rfl⟩

theorem C1_amended_witness :
    (processLine (fun _ => .ok .null) 1 1 "\x7b\"a\": 1\x7d" ⟨2, 3, ["x"], []⟩).errors = 3 ∧
    (processLine (fun _ => .ok .null) 1 1 "\x7b\"a\": 1\x7d" ⟨2, 3, ["x"], []⟩).out = ["x"] ∧
    (processLine (fun _ => .ok .null) 1 1 "\x7b\"a\": 1\x7d" ⟨2, 3, ["x"], []⟩).processed = 2 := by
  have h := C1_amended_skip_without_error (fun _ => .ok .null) 1 1 "\x7b\"a\": 1\x7d"
    ⟨2, 3, ["x"], []⟩ [("a", .num 1)] rfl rfl
  exact ⟨h.1, h.2.1, h.2.2.1⟩

/-- C3: a line that is not valid JSON hits the `except json.JSONDecodeError`
handler (lines 138-142): the error counter goes up by exactly one, nothing is
written for the line, and the loop moves on to the next line. -/
theorem C3_invalid_json_counted (gen : String → Except GenError Json)
    (verbosity n : Nat) (raw : String) (acc : BatchAcc)
    (hne : ¬ pyStrip raw = "") (hbad : Json.loads (pyStrip raw) = none) :
    processLine gen verbosity n raw acc
      = { acc with errors := acc.errors + 1,
                   msgs := acc.msgs ++ (if 1 ≤ verbosity then [Msg.errorInvalidJson n] else []) } ∧
    ∀ (k : Nat) (rest : List String),
      runLines gen verbosity k (raw :: rest) acc
        = runLines gen verbosity (k + 1) rest (processLine gen verbosity k raw acc) := by
  constructor
  · simp [processLine, hne, hbad]
  · intro k rest; rfl

theorem C3_witness :
    processLine (fun _ => .ok .null) 1 7 "not json" ⟨0, 0, [], []⟩
      = ⟨0, 1, [], [Msg.errorInvalidJson 7]⟩ :=
  (C3_invalid_json_counted (fun _ => .ok .null) 1 7 "not json" ⟨0, 0, [], []⟩
    (by decide) rfl).1

/-- C4: when the generator call raises (any exception), the record lands in
the `except Exception` handler (lines 144-148): it is skipped, the error
counter goes up by exactly one, and the loop continues with the next lines —
the batch is not aborted. -/
theorem C4_generator_failure_skipped (gen : String → Except GenError Json)
    (verbosity n : Nat) (raw : String) (acc : BatchAcc)
    (ms : List (String × Json)) (s : String) (e : GenError)
    (hload : Json.loads (pyStrip raw) = some (.obj ms))
    (hget : lookupKey ms "text" = some (.str s))
    (hs : ¬ pyStrip s = "")
    (hgen : gen s = .error e) :
    (processLine gen verbosity n raw acc).errors = acc.errors + 1 ∧
    (processLine gen verbosity n raw acc).out = acc.out ∧
    (processLine gen verbosity n raw acc).processed = acc.processed ∧
    ∀ (k : Nat) (rest : List String),
      runLines gen verbosity k (raw :: rest) acc
        = runLines gen verbosity (k + 1) rest (processLine gen verbosity k raw acc) := by
  have hne : ¬ pyStrip raw = "" := loads_ne_empty hload
  have hm : processLine gen verbosity n raw acc
      = { acc with
          errors := acc.errors + 1,
          msgs := (acc.msgs ++ (if 2 ≤ verbosity then [Msg.progressNote n (previewOf s)] else []))
            ++ (if 1 ≤ verbosity then [Msg.errorProcessing n] else []) } := by
    simp [processLine, hne, hload, hget, hs, hgen]
  rw [hm]
  exact ⟨rfl, rfl, rfl, fun k rest => rfl⟩

theorem C4_witness :
    (processLine (fun _ => .error (.exc "timeout")) 1 2 "\x7b\"text\": \"hi\"\x7d"
        ⟨5, 1, ["y"], []⟩).errors = 2 ∧
    (processLine (fun _ => .error (.exc "timeout")) 1 2 "\x7b\"text\": \"hi\"\x7d"
        ⟨5, 1, ["y"], []⟩).out = ["y"] ∧
    (processLine (fun _ => .error (.exc "timeout")) 1 2 "\x7b\"text\": \"hi\"\x7d"
        ⟨5, 1, ["y"], []⟩).processed = 5 := by
  have h := C4_generator_failure_skipped (fun _ => .error (.exc "timeout")) 1 2
    "\x7b\"text\": \"hi\"\x7d" ⟨5, 1, ["y"], []⟩ [("text", .str "hi")] "hi" (.exc "timeout")
    rfl rfl (by decide) rfl
  exact ⟨h.1, h.2.1, h.2.2.1⟩

/-- C2 counterexample: for the input record `\x7b"alt": null, "text": "x"\x7d`,
which already carries an `alt` key, the assignment at line 129 overwrites that
key in place instead of adding a new one: the written record maps `alt` to the
generator's result, so the original pair `("alt", null)` is not preserved. -/
theorem C2_counterexample :
    Json.loads "\x7b\"alt\": null, \"text\": \"x\"\x7d"
      = some (.obj [("alt", .null), ("text", .str "x")]) ∧
    accOut (process_jsonl_file (fun _ => .ok (.str "y")) true "k" 0
        ["\x7b\"alt\": null, \"text\": \"x\"\x7d"])
      = some ["\x7b\"alt\": \"y\", \"text\": \"x\"\x7d\n"] ∧
    ¬ accOut (process_jsonl_file (fun _ => .ok (.str "y")) true "k" 0
        ["\x7b\"alt\": null, \"text\": \"x\"\x7d"])
      = some ["\x7b\"alt\": null, \"text\": \"x\", \"alt\": \"y\"\x7d\n"] ∧
    lookupKey [("alt", Json.null), ("text", Json.str "x")] "alt" = some .null ∧
    lookupKey (insertAssign [("alt", Json.null), ("text", Json.str "x")] "alt" (.str "y")) "alt"
      = some (.str "y") :=
  ⟨rfl, rfl, by decide, rfl, rfl⟩

/-- C2 amended: for a record with a non-empty string `text` field whose
generator call succeeds, exactly one output line is written: the record with
the `alt` key set to the generator's result — appended as a new final key when
absent, overwritten in place when already present — with every other key, its
value and its position unchanged; `processed` goes up by one, the error
counter does not move. -/
theorem C2_amended_insert_or_assign (gen : String → Except GenError Json)
    (verbosity n : Nat) (raw : String) (acc : BatchAcc)
    (ms : List (String × Json)) (s : String) (alt : Json)
    (hload : Json.loads (pyStrip raw) = some (.obj ms))
    (hget : lookupKey ms "text" = some (.str s))
    (hs : ¬ pyStrip s = "")
    (hgen : gen s = .ok alt) :
    (processLine gen verbosity n raw acc).out
      = acc.out ++ [Json.dumps (.obj (insertAssign ms "alt" alt)) ++ "\n"] ∧
    (processLine gen verbosity n raw acc).processed = acc.processed + 1 ∧
    (processLine gen verbosity n raw acc).errors = acc.errors ∧
    (hasKey "alt" ms = false → insertAssign ms "alt" alt = ms ++ [("alt", alt)]) ∧
    (∀ a : String, a ≠ "alt" →
      lookupKey (insertAssign ms "alt" alt) a = lookupKey ms a) ∧
    keysOf (insertAssign ms "alt" alt)
      = (if hasKey "alt" ms then keysOf ms else keysOf ms ++ ["alt"]) := by
  have hne : ¬ pyStrip raw = "" := loads_ne_empty hload
  have hm : processLine gen verbosity n raw acc
      = { acc with
          processed := acc.processed + 1,
          out := acc.out ++ [Json.dumps (.obj (insertAssign ms "alt" alt)) ++ "\n"],
          msgs := (acc.msgs ++ (if 2 ≤ verbosity then [Msg.progressNote n (previewOf s)] else []))
            ++ (if 3 ≤ verbosity then [Msg.resultNote n alt] else []) } := by
    simp [processLine, hne, hload, hget, hs, hgen]
  rw [hm]
  exact ⟨rfl, rfl, rfl, fun h => insertAssign_new ms "alt" alt h,
    fun a ha => lookupKey_insertAssign_ne ms "alt" alt a ha,
    insertAssign_keys ms "alt" alt⟩

theorem C2_amended_witness :
    (processLine (fun _ => .ok (.str "y")) 1 1 "\x7b\"text\": \"hi\"\x7d" ⟨0, 0, [], []⟩).out
      = ["\x7b\"text\": \"hi\", \"alt\": \"y\"\x7d\n"] ∧
    (processLine (fun _ => .ok (.str "y")) 1 1 "\x7b\"text\": \"hi\"\x7d" ⟨0, 0, [], []⟩).processed = 1 ∧
    (processLine (fun _ => .ok (.str "y")) 1 1 "\x7b\"text\": \"hi\"\x7d" ⟨0, 0, [], []⟩).errors = 0 ∧
    insertAssign [("text", Json.str "hi")] "alt" (.str "y")
      = [("text", Json.str "hi")] ++ [("alt", Json.str "y")] ∧
    keysOf (insertAssign [("text", Json.str "hi")] "alt" (.str "y")) = ["text", "alt"] := by
  have h := C2_amended_insert_or_assign (fun _ => .ok (.str "y")) 1 1
    "\x7b\"text\": \"hi\"\x7d" ⟨0, 0, [], []⟩ [("text", .str "hi")] "hi" (.str "y")
    rfl rfl (by decide) rfl
  exact ⟨h.1, h.2.1, h.2.2.1, h.2.2.2.1 rfl, h.2.2.2.2.2⟩

/-! ### Decimal digits: the serializer's number output parses back -/

theorem digitCh_isDigit (m : Nat) (h : m < 10) : (digitCh m).isDigit = true := by
  interval_cases m <;> decide

theorem digitCh_toNat (m : Nat) (h : m < 10) : (digitCh m).toNat - 48 = m := by
  interval_cases m <;> decide

theorem natDigitsAux_congr (n : Nat) :
    ∀ f g : Nat, n < f → n < g → natDigitsAux f n = natDigitsAux g n := by
  induction n using Nat.strongRecOn with
  | _ n ih =>
    intro f g hf hg
    obtain ⟨f', rfl⟩ : ∃ k, f = k + 1 := ⟨f - 1, by omega⟩
    obtain ⟨g', rfl⟩ : ∃ k, g = k + 1 := ⟨g - 1, by omega⟩
    by_cases h : n < 10
    · simp [natDigitsAux, h]
    · have hn : n / 10 < n := Nat.div_lt_self (by omega) (by omega)
      simp only [natDigitsAux, h, if_false]
      rw [ih (n / 10) hn f' g' (by omega) (by omega)]

theorem natDigits_eq (n : Nat) :
    natDigits n
      = (if n < 10 then [digitCh n] else natDigits (n / 10) ++ [digitCh (n % 10)]) := by
  by_cases h : n < 10
  · simp [natDigits, natDigitsAux, h]
  · have hn : n / 10 < n := Nat.div_lt_self (by omega) (by omega)
    simp only [natDigits, h, if_false]
    show natDigitsAux (n + 1) n = _
    rw [show natDigitsAux (n + 1) n = natDigitsAux n (n / 10) ++ [digitCh (n % 10)] from by
      simp [natDigitsAux, h]]
    rw [natDigitsAux_congr (n / 10) n (n / 10 + 1) (by omega) (by omega)]

theorem natDigits_ne_nil (n : Nat) : natDigits n ≠ [] := by
  rw [natDigits_eq]
  by_cases h : n < 10 <;> simp [h]

theorem natDigits_digits (n : Nat) : ∀ c ∈ natDigits n, c.isDigit = true := by
  induction n using Nat.strongRecOn with
  | _ n ih =>
    rw [natDigits_eq]
    by_cases h : n < 10
    · simp only [h, if_true]
      intro c hc
      rw [List.mem_singleton] at hc
      subst hc
      exact digitCh_isDigit n h
    · simp only [h, if_false]
      intro c hc
      rw [List.mem_append] at hc
      rcases hc with hc | hc
      · exact ih (n / 10) (Nat.div_lt_self (by omega) (by omega)) c hc
      · rw [List.mem_singleton] at hc
        subst hc
        exact digitCh_isDigit _ (Nat.mod_lt _ (by omega))

theorem natDigits_cons (n : Nat) :
    ∃ d t, natDigits n = d :: t ∧ d.isDigit = true := by
  cases hd : natDigits n with
  | nil => exact absurd hd (natDigits_ne_nil n)
  | cons d t =>
    exact ⟨d, t, rfl, natDigits_digits n d (hd ▸ List.mem_cons_self d t)⟩

theorem digitsValAux_append (ds : List Char) :
    ∀ (acc : Nat) (c : Char),
      digitsValAux acc (ds ++ [c]) = digitsValAux acc ds * 10 + (c.toNat - 48) := by
  induction ds with
  | nil => intro acc c; rfl
  | cons d tl ih =>
    intro acc c
    exact ih (acc * 10 + (d.toNat - 48)) c

theorem digitsValAux_natDigits (n : Nat) :
    ∀ acc : Nat, digitsValAux acc (natDigits n) = acc * 10 ^ (natDigits n).length + n := by
  induction n using Nat.strongRecOn with
  | _ n ih =>
    intro acc
    rw [natDigits_eq]
    by_cases h : n < 10
    · simp only [h, if_true, List.length_singleton]
      show digitsValAux (acc * 10 + ((digitCh n).toNat - 48)) [] = acc * 10 ^ 1 + n
      rw [digitCh_toNat n h]
      show acc * 10 + n = acc * 10 ^ 1 + n
      rw [pow_one]
    · have hn : n / 10 < n := Nat.div_lt_self (by omega) (by omega)
      simp only [h, if_false, List.length_append, List.length_singleton]
      rw [digitsValAux_append, ih (n / 10) hn acc, digitCh_toNat _ (Nat.mod_lt _ (by omega))]
      rw [pow_succ]
      have hmod := Nat.div_add_mod n 10
      set L := 10 ^ (natDigits (n / 10)).length
      ring_nf
      omega

theorem digitsVal_natDigits (n : Nat) : digitsVal (natDigits n) = n := by
  have h := digitsValAux_natDigits n 0
  simpa [digitsVal] using h

theorem takeDigits_not_digit (c : Char) (t : List Char) (h : c.isDigit = false) :
    takeDigits (c :: t) = ([], c :: t) := by
  simp [takeDigits, h]

theorem takeDigits_run (ds r : List Char) (hds : ∀ c ∈ ds, c.isDigit = true)
    (hr : takeDigits r = ([], r)) : takeDigits (ds ++ r) = (ds, r) := by
  induction ds with
  | nil => simpa using hr
  | cons d tl ih =>
    have hd : d.isDigit = true := hds d (List.mem_cons_self d tl)
    have ht := ih (fun c hc => hds c (List.mem_cons_of_mem d hc))
    simp [takeDigits, hd, ht]

theorem delim_head_facts (c : Char) (t : List Char) (h : Delim (c :: t)) :
    c.isDigit = false ∧ c ≠ '.' ∧ c ≠ 'e' ∧ c ≠ 'E' ∧ isJsonWs c = false ∨
    c = '\n' ∧ c.isDigit = false ∧ c ≠ '.' ∧ c ≠ 'e' ∧ c ≠ 'E' := by
  rcases h with h | h | h | h <;> subst h
  · exact Or.inl (by refine ⟨by decide, by decide, by decide, by decide, by decide⟩)
  · exact Or.inl (by refine ⟨by decide, by decide, by decide, by decide, by decide⟩)
  · exact Or.inl (by refine ⟨by decide, by decide, by decide, by decide, by decide⟩)
  · exact Or.inr ⟨rfl, by decide, by decide, by decide, by decide⟩

theorem delim_not_digit (r : List Char) (h : Delim r) : takeDigits r = ([], r) := by
  cases r with
  | nil => rfl
  | cons c t =>
    rcases delim_head_facts c t h with ⟨hd, _⟩ | ⟨_, hd, _⟩ <;>
      exact takeDigits_not_digit c t hd

theorem numTail_delim (neg : Bool) (ds : List Char) (r : List Char) (h : Delim r) :
    numTail neg ds r
      = some (.num (if neg then -(digitsVal ds : Int) else (digitsVal ds : Int)), r) := by
  cases r with
  | nil => cases neg <;> rfl
  | cons c t =>
    rcases delim_head_facts c t h with ⟨_, h1, h2, h3, _⟩ | ⟨hc, _, h1, h2, h3⟩
    · cases neg <;> simp [numTail, h1, h2, h3]
    · subst hc
      cases neg <;> rfl

/-! ### String escapes: the serializer's string output parses back -/

theorem hexVal_digitCh (m : Nat) (h : m < 16) : hexVal (digitCh m) = some m := by
  interval_cases m <;> decide

theorem parseStringBody_quote (cs : List Char) : parseStringBody ('"' :: cs) = some ([], cs) := by
  rw [parseStringBody.eq_def]
  simp

theorem parseStringBody_simple_escape (e u : Char) (cs : List Char)
    (hu : ¬ e = 'u') (he : unescapeChar e = some u) :
    parseStringBody ('\\' :: e :: cs)
      = (match parseStringBody cs with
         | some (s, r) => some (u :: s, r)
         | none => none) := by
  rw [parseStringBody.eq_def]
  simp [hu, he]

theorem parseStringBody_verbatim (c : Char) (cs : List Char)
    (h1 : ¬ c = '"') (h2 : ¬ c = '\\') (h3 : ¬ c.toNat < 32) :
    parseStringBody (c :: cs)
      = (match parseStringBody cs with
         | some (s, r) => some (c :: s, r)
         | none => none) := by
  rw [parseStringBody.eq_def]
  simp [h1, h2, h3]

theorem parseStringBody_unicode (c : Char) (cs : List Char) (h3 : c.toNat < 32) :
    parseStringBody
        ('\\' :: 'u' :: '0' :: '0' :: digitCh (c.toNat / 16) :: digitCh (c.toNat % 16) :: cs)
      = (match parseStringBody cs with
         | some (s, r) => some (c :: s, r)
         | none => none) := by
  have e0 : hexVal '0' = some 0 := by decide
  have e1 : hexVal (digitCh (c.toNat / 16)) = some (c.toNat / 16) :=
    hexVal_digitCh _ (by omega)
  have e2 : hexVal (digitCh (c.toNat % 16)) = some (c.toNat % 16) :=
    hexVal_digitCh _ (Nat.mod_lt _ (by omega))
  have hcode : c.toNat / 16 * 16 + c.toNat % 16 = c.toNat := by omega
  have hvalid : Nat.isValidChar c.toNat := Or.inl (by omega)
  rw [parseStringBody.eq_def]
  simp [e0, e1, e2, hcode, hvalid, Char.ofNat_toNat]

theorem escapeChar_control (c : Char) (h3 : c.toNat < 32)
    (hb : ¬ c = '\x08') (ht2 : ¬ c = '\t') (hn2 : ¬ c = '\n')
    (hf2 : ¬ c = '\x0c') (hr2 : ¬ c = '\r') :
    escapeChar c = ['\\', 'u', '0', '0', digitCh (c.toNat / 16), digitCh (c.toNat % 16)] := by
  have h1 : ¬ c = '"' := by intro hh; subst hh; exact absurd h3 (by decide)
  have h2 : ¬ c = '\\' := by intro hh; subst hh; exact absurd h3 (by decide)
  simp [escapeChar, h1, h2, h3, hb, ht2, hn2, hf2, hr2]

theorem parseStringBody_escape (s : List Char) : ∀ rest : List Char,
    parseStringBody (escChars s ++ '"' :: rest) = some (s, rest) := by
  induction s with
  | nil => intro rest; simp [escChars, parseStringBody_quote]
  | cons c tl ih =>
    intro rest
    show parseStringBody ((escapeChar c ++ escChars tl) ++ '"' :: rest) = _
    rw [List.append_assoc]
    by_cases h1 : c = '"'
    · subst h1
      rw [show escapeChar '"' = ['\\', '"'] from rfl]
      rw [show (['\\', '"'] : List Char) ++ (escChars tl ++ '"' :: rest)
          = '\\' :: '"' :: (escChars tl ++ '"' :: rest) from rfl]
      rw [parseStringBody_simple_escape '"' '"' _ (by decide) rfl, ih rest]
    · by_cases h2 : c = '\\'
      · subst h2
        rw [show escapeChar '\\' = ['\\', '\\'] from rfl]
        rw [show (['\\', '\\'] : List Char) ++ (escChars tl ++ '"' :: rest)
            = '\\' :: '\\' :: (escChars tl ++ '"' :: rest) from rfl]
        rw [parseStringBody_simple_escape '\\' '\\' _ (by decide) rfl, ih rest]
      · by_cases h3 : c.toNat < 32
        · by_cases hb : c = '\x08'
          · subst hb
            rw [show escapeChar '\x08' = ['\\', 'b'] from rfl]
            rw [show (['\\', 'b'] : List Char) ++ (escChars tl ++ '"' :: rest)
                = '\\' :: 'b' :: (escChars tl ++ '"' :: rest) from rfl]
            rw [parseStringBody_simple_escape 'b' '\x08' _ (by decide) rfl, ih rest]
          · by_cases ht2 : c = '\t'
            · subst ht2
              rw [show escapeChar '\t' = ['\\', 't'] from rfl]
              rw [show (['\\', 't'] : List Char) ++ (escChars tl ++ '"' :: rest)
                  = '\\' :: 't' :: (escChars tl ++ '"' :: rest) from rfl]
              rw [parseStringBody_simple_escape 't' '\t' _ (by decide) rfl, ih rest]
            · by_cases hn2 : c = '\n'
              · subst hn2
                rw [show escapeChar '\n' = ['\\', 'n'] from rfl]
                rw [show (['\\', 'n'] : List Char) ++ (escChars tl ++ '"' :: rest)
                    = '\\' :: 'n' :: (escChars tl ++ '"' :: rest) from rfl]
                rw [parseStringBody_simple_escape 'n' '\n' _ (by decide) rfl, ih rest]
              · by_cases hf2 : c = '\x0c'
                · subst hf2
                  rw [show escapeChar '\x0c' = ['\\', 'f'] from rfl]
                  rw [show (['\\', 'f'] : List Char) ++ (escChars tl ++ '"' :: rest)
                      = '\\' :: 'f' :: (escChars tl ++ '"' :: rest) from rfl]
                  rw [parseStringBody_simple_escape 'f' '\x0c' _ (by decide) rfl, ih rest]
                · by_cases hr2 : c = '\r'
                  · subst hr2
                    rw [show escapeChar '\r' = ['\\', 'r'] from rfl]
                    rw [show (['\\', 'r'] : List Char) ++ (escChars tl ++ '"' :: rest)
                        = '\\' :: 'r' :: (escChars tl ++ '"' :: rest) from rfl]
                    rw [parseStringBody_simple_escape 'r' '\r' _ (by decide) rfl, ih rest]
                  · rw [escapeChar_control c h3 hb ht2 hn2 hf2 hr2]
                    rw [show (['\\', 'u', '0', '0', digitCh (c.toNat / 16),
                          digitCh (c.toNat % 16)] : List Char) ++ (escChars tl ++ '"' :: rest)
                        = '\\' :: 'u' :: '0' :: '0' :: digitCh (c.toNat / 16)
                          :: digitCh (c.toNat % 16) :: (escChars tl ++ '"' :: rest) from rfl]
                    rw [parseStringBody_unicode c _ h3, ih rest]
        · rw [show escapeChar c = [c] from by simp [escapeChar, h1, h2, h3]]
          rw [show ([c] : List Char) ++ (escChars tl ++ '"' :: rest)
              = c :: (escChars tl ++ '"' :: rest) from rfl]
          rw [parseStringBody_verbatim c _ h1 h2 h3, ih rest]

/-! ### Well-formedness bookkeeping for parsed objects -/

theorem wf_arr_eq (es : List Json) : Json.wf (.arr es) = wfElems es := rfl

theorem wf_obj_eq (ms : List (String × Json)) : Json.wf (.obj ms) = wfMembers ms := rfl

theorem wfElems_cons_eq (e : Json) (tl : List Json) :
    wfElems (e :: tl) = (Json.wf e && wfElems tl) := rfl

theorem wfMembers_cons_eq (k : String) (v : Json) (tl : List (String × Json)) :
    wfMembers ((k, v) :: tl) = (!hasKey k tl && Json.wf v && wfMembers tl) := rfl

theorem hasKey_append (a : String) (xs ys : List (String × Json)) :
    hasKey a (xs ++ ys) = (hasKey a xs || hasKey a ys) := by
  induction xs with
  | nil => simp [hasKey]
  | cons m tl ih =>
    obtain ⟨k, v⟩ := m
    by_cases hk : k = a <;> simp [hasKey, hk, ih]

theorem insertAssign_hasKey (a k : String) (ms : List (String × Json)) (v : Json) :
    hasKey a (insertAssign ms k v) = (hasKey a ms || decide (k = a)) := by
  induction ms with
  | nil => simp [insertAssign, hasKey]
  | cons m tl ih =>
    obtain ⟨k', v'⟩ := m
    by_cases hk : k' = k
    · subst hk
      by_cases ha : k' = a <;> simp [insertAssign, hasKey, ha]
    · by_cases ha : k' = a
      · subst ha
        simp [insertAssign, hasKey, hk]
      · simp [insertAssign, hasKey, hk, ha, ih]

theorem insertAssign_wfMembers (ms : List (String × Json)) (k : String) (v : Json)
    (h1 : wfMembers ms = true) (h2 : Json.wf v = true) :
    wfMembers (insertAssign ms k v) = true := by
  induction ms with
  | nil => simp [insertAssign, wfMembers_cons_eq, hasKey, h2, show wfMembers [] = true from rfl]
  | cons m tl ih =>
    obtain ⟨k', v'⟩ := m
    rw [wfMembers_cons_eq] at h1
    simp only [Bool.and_eq_true, Bool.not_eq_true'] at h1
    obtain ⟨⟨hk', hv'⟩, htl⟩ := h1
    by_cases hk : k' = k
    · subst hk
      simp [insertAssign, wfMembers_cons_eq, hk', h2, htl]
    · simp only [insertAssign, hk, if_false]
      rw [wfMembers_cons_eq]
      simp only [Bool.and_eq_true, Bool.not_eq_true']
      refine ⟨⟨?_, hv'⟩, ih htl⟩
      rw [insertAssign_hasKey]
      simp [hk', decide_eq_false (fun hh : k = k' => hk hh.symm)]

theorem insFold_wf (ms : List (String × Json)) :
    ∀ acc : List (String × Json), wfMembers acc = true →
      (∀ m ∈ ms, Json.wf m.2 = true) → wfMembers (insFold acc ms) = true := by
  induction ms with
  | nil => intro acc hacc _; exact hacc
  | cons m tl ih =>
    obtain ⟨k, v⟩ := m
    intro acc hacc hvals
    show wfMembers (insFold (insertAssign acc k v) tl) = true
    exact ih (insertAssign acc k v)
      (insertAssign_wfMembers acc k v hacc (hvals (k, v) (List.mem_cons_self _ _)))
      (fun m hm => hvals m (List.mem_cons_of_mem _ hm))

theorem insFold_disjoint (ms : List (String × Json)) :
    ∀ acc : List (String × Json), wfMembers ms = true →
      (∀ a : String, hasKey a ms = true → hasKey a acc = false) →
      insFold acc ms = acc ++ ms := by
  induction ms with
  | nil => intro acc _ _; simp [insFold]
  | cons m tl ih =>
    obtain ⟨k, v⟩ := m
    intro acc hwf hdisj
    rw [wfMembers_cons_eq] at hwf
    simp only [Bool.and_eq_true, Bool.not_eq_true'] at hwf
    obtain ⟨⟨hk, hv⟩, htl⟩ := hwf
    have hacc : hasKey k acc = false := hdisj k (by simp [hasKey])
    show insFold (insertAssign acc k v) tl = acc ++ (k, v) :: tl
    rw [insertAssign_new acc k v hacc, ih (acc ++ [(k, v)]) htl ?disj]
    · simp
    case disj =>
      intro a ha
      rw [hasKey_append]
      have h1 : hasKey a acc = false := by
        refine hdisj a ?_
        simp only [hasKey]
        by_cases hka : k = a <;> simp [hka, ha]
      have h2 : ¬ k = a := by
        intro hh
        subst hh
        rw [ha] at hk
        cases hk
      simp [h1, hasKey, h2]

theorem insFold_nil_of_nodup (ms : List (String × Json)) (h : wfMembers ms = true) :
    insFold [] ms = ms := by
  have := insFold_disjoint ms [] h (fun a _ => rfl)
  simpa using this

/-! ### One-step unfoldings of the value scanner -/

theorem parseValue_null_step (fuel : Nat) (r : List Char) :
    parseValue (fuel + 1) ('n' :: 'u' :: 'l' :: 'l' :: r) = some (.null, r) := rfl

theorem parseValue_true_step (fuel : Nat) (r : List Char) :
    parseValue (fuel + 1) ('t' :: 'r' :: 'u' :: 'e' :: r) = some (.bool true, r) := rfl

theorem parseValue_false_step (fuel : Nat) (r : List Char) :
    parseValue (fuel + 1) ('f' :: 'a' :: 'l' :: 's' :: 'e' :: r) = some (.bool false, r) := rfl

theorem parseValue_str_step (fuel : Nat) (r : List Char) :
    parseValue (fuel + 1) ('"' :: r)
      = (match parseStringBody r with
         | some (chars, r2) => some (.str ⟨chars⟩, r2)
         | none => none) := rfl

theorem parseValue_neg_step (fuel : Nat) (r : List Char) :
    parseValue (fuel + 1) ('-' :: r)
      = (match takeDigits r with
         | ([], _) => none
         | (d :: ds, r2) => numTail true (d :: ds) r2) := rfl

theorem parseValue_arr_step (fuel : Nat) (r : List Char) :
    parseValue (fuel + 1) ('[' :: r)
      = (match skipWs r with
         | ']' :: r2 => some (.arr [], r2)
         | r2 =>
           match parseElems fuel r2 with
           | some (es, r3) => some (.arr es, r3)
           | none => none) := rfl

theorem parseValue_obj_step (fuel : Nat) (r : List Char) :
    parseValue (fuel + 1) ('{' :: r)
      = (match skipWs r with
         | '}' :: r2 => some (.obj [], r2)
         | r2 =>
           match parseMembers fuel r2 with
           | some (ms, r3) => some (.obj (insFold [] ms), r3)
           | none => none) := rfl

theorem parseElems_step (fuel : Nat) (cs : List Char) :
    parseElems (fuel + 1) cs
      = (match parseValue fuel cs with
         | none => none
         | some (j, r) =>
           match skipWs r with
           | ',' :: r2 =>
             match parseElems fuel (skipWs r2) with
             | some (es, r3) => some (j :: es, r3)
             | none => none
           | ']' :: r2 => some ([j], r2)
           | _ => none) := rfl

theorem parseMembers_step (fuel : Nat) (cs : List Char) :
    parseMembers (fuel + 1) cs
      = (match cs with
         | '"' :: cs1 =>
           match parseStringBody cs1 with
           | none => none
           | some (kChars, r1) =>
             match skipWs r1 with
             | ':' :: r2 =>
               match parseValue fuel (skipWs r2) with
               | none => none
               | some (v, r3) =>
                 match skipWs r3 with
                 | ',' :: r4 =>
                   match parseMembers fuel (skipWs r4) with
                   | some (ms, r5) => some ((⟨kChars⟩, v) :: ms, r5)
                   | none => none
                 | '}' :: r4 => some ([(⟨kChars⟩, v)], r4)
                 | _ => none
             | _ => none
         | _ => none) := rfl

/-! ### Heads of serialized output -/

theorem digit_ne (c : Char) (h : c.isDigit = true) (d : Char) (hd : d.isDigit = false) :
    ¬ c = d := by
  intro hh
  subst hh
  rw [h] at hd
  cases hd

theorem digit_not_ws (c : Char) (h : c.isDigit = true) : isJsonWs c = false := by
  by_contra hc
  rw [Bool.not_eq_false] at hc
  simp only [isJsonWs, Bool.or_eq_true, decide_eq_true_eq] at hc
  rcases hc with ((rfl | rfl) | rfl) | rfl <;> exact absurd h (by decide)

theorem dumpV_head (j : Json) :
    ∃ c t, dumpV j = c :: t ∧ isJsonWs c = false ∧ ¬ c = ']' ∧ ¬ c = '}' := by
  cases j with
  | num i =>
    by_cases hi : i < 0
    · refine ⟨'-', natDigits i.natAbs, ?_, by decide, by decide, by decide⟩
      simp [dumpV, intDump, hi]
    · obtain ⟨d, t, hd, hdig⟩ := natDigits_cons i.toNat
      refine ⟨d, t, ?_, digit_not_ws d hdig,
        digit_ne d hdig ']' (by decide), digit_ne d hdig '}' (by decide)⟩
      simp [dumpV, intDump, hi, hd]
  | bool b => cases b <;> exact ⟨_, _, rfl, by decide, by decide, by decide⟩
  | arr es => cases es <;> exact ⟨'[', _, rfl, by decide, by decide, by decide⟩
  | obj ms => cases ms <;> exact ⟨'{', _, rfl, by decide, by decide, by decide⟩
  | null => exact ⟨'n', _, rfl, by decide, by decide, by decide⟩
  | str s => exact ⟨'"', _, rfl, by decide, by decide, by decide⟩

theorem skipWs_cons_not (c : Char) (t : List Char) (h : isJsonWs c = false) :
    skipWs (c :: t) = c :: t := by
  simp [skipWs, h]

theorem skipWs_cons_ws (c : Char) (t : List Char) (h : isJsonWs c = true) :
    skipWs (c :: t) = skipWs t := by
  simp [skipWs, h]

theorem skipWs_dumpV (j : Json) (x : List Char) :
    skipWs (dumpV j ++ x) = dumpV j ++ x := by
  obtain ⟨c, t, hd, hws, _, _⟩ := dumpV_head j
  rw [hd, List.cons_append, skipWs_cons_not c _ hws]

theorem dumpMem_cons (k : String) (v : Json) :
    dumpMem (k, v) = '"' :: (escChars k.data ++ '"' :: ':' :: ' ' :: dumpV v) := rfl

theorem delim_comma (x : List Char) : Delim (',' :: x) := Or.inl rfl

theorem delim_rbracket (x : List Char) : Delim (']' :: x) := Or.inr (Or.inl rfl)

theorem delim_rbrace (x : List Char) : Delim ('}' :: x) := Or.inr (Or.inr (Or.inl rfl))

theorem delim_newline (x : List Char) : Delim ('\n' :: x) := Or.inr (Or.inr (Or.inr rfl))

theorem delim_elems_tail (tl : List Json) (rest : List Char) :
    Delim (dumpElems tl ++ ']' :: rest) := by
  cases tl with
  | nil =>
    rw [show dumpElems [] = [] from rfl, List.nil_append]
    exact delim_rbracket rest
  | cons e tl2 =>
    rw [show dumpElems (e :: tl2) = ',' :: ' ' :: (dumpV e ++ dumpElems tl2) from rfl,
      List.cons_append]
    exact delim_comma _

theorem delim_members_tail (tl : List (String × Json)) (rest : List Char) :
    Delim (dumpMembers tl ++ '}' :: rest) := by
  cases tl with
  | nil =>
    rw [show dumpMembers [] = [] from rfl, List.nil_append]
    exact delim_rbrace rest
  | cons m tl2 =>
    rw [show dumpMembers (m :: tl2) = ',' :: ' ' :: (dumpMem m ++ dumpMembers tl2) from rfl,
      List.cons_append]
    exact delim_comma _

/-! ### The number branch of the scanner -/

theorem natDigits_head_digitCh (n : Nat) :
    ∃ k t, k < 10 ∧ natDigits n = digitCh k :: t := by
  induction n using Nat.strongRecOn with
  | _ n ih =>
    rw [natDigits_eq]
    by_cases h : n < 10
    · exact ⟨n, [], h, by simp [h]⟩
    · obtain ⟨k, t, hk, hd⟩ := ih (n / 10) (Nat.div_lt_self (by omega) (by omega))
      refine ⟨k, t ++ [digitCh (n % 10)], hk, ?_⟩
      simp [h, hd]

theorem parseValue_digitCh_step (fuel : Nat) (k : Nat) (hk : k < 10) (t : List Char) :
    parseValue (fuel + 1) (digitCh k :: t)
      = (match takeDigits (digitCh k :: t) with
         | (ds, r2) => numTail false ds r2) := by
  interval_cases k <;> rfl

theorem parseValue_num (fuel : Nat) (i : Int) (rest : List Char) (h : Delim rest) :
    parseValue (fuel + 1) (intDump i ++ rest) = some (.num i, rest) := by
  by_cases hi : i < 0
  · rw [show intDump i = '-' :: natDigits i.natAbs from by simp [intDump, hi], List.cons_append]
    rw [parseValue_neg_step]
    rw [takeDigits_run _ _ (natDigits_digits _) (delim_not_digit rest h)]
    obtain ⟨d, t, hd, hdig⟩ := natDigits_cons i.natAbs
    rw [hd]
    show numTail true (d :: t) rest = some (.num i, rest)
    rw [numTail_delim true (d :: t) rest h]
    rw [show digitsVal (d :: t) = i.natAbs from by rw [← hd]; exact digitsVal_natDigits _]
    have hfin : (if (true : Bool) = true then -(i.natAbs : Int) else (i.natAbs : Int)) = i := by
      rw [if_pos rfl]
      omega
    rw [hfin]
  · rw [show intDump i = natDigits i.toNat from by simp [intDump, hi]]
    obtain ⟨k, t, hk, heq⟩ := natDigits_head_digitCh i.toNat
    rw [heq, List.cons_append, parseValue_digitCh_step fuel k hk]
    rw [show digitCh k :: (t ++ rest) = (digitCh k :: t) ++ rest from rfl, ← heq]
    rw [takeDigits_run _ _ (natDigits_digits _) (delim_not_digit rest h)]
    show numTail false (natDigits i.toNat) rest = some (.num i, rest)
    rw [numTail_delim false _ rest h]
    rw [digitsVal_natDigits]
    have hfin : (if (false : Bool) = true then -(i.toNat : Int) else (i.toNat : Int)) = i := by
      rw [if_neg (by decide)]
      omega
    rw [hfin]

theorem match_arr_tail (f : Nat) (c : Char) (t2 : List Char) (hne : ¬ c = ']') :
    (match c :: t2 with
     | ']' :: r2 => some (Json.arr [], r2)
     | r2 =>
       match parseElems f r2 with
       | some (es, r3) => some (Json.arr es, r3)
       | none => none)
      = (match parseElems f (c :: t2) with
         | some (es, r3) => some (Json.arr es, r3)
         | none => none) := by
  split <;>
    first
      | rfl
      | (exact absurd rfl hne)
      | (rename_i heq; injection heq with h1 h2; exact absurd h1 hne)

theorem match_obj_tail (f : Nat) (c : Char) (t2 : List Char) (hne : ¬ c = '}') :
    (match c :: t2 with
     | '}' :: r2 => some (Json.obj [], r2)
     | r2 =>
       match parseMembers f r2 with
       | some (ms, r3) => some (Json.obj (insFold [] ms), r3)
       | none => none)
      = (match parseMembers f (c :: t2) with
         | some (ms, r3) => some (Json.obj (insFold [] ms), r3)
         | none => none) := by
  split <;>
    first
      | rfl
      | (exact absurd rfl hne)
      | (rename_i heq; injection heq with h1 h2; exact absurd h1 hne)

/-- The codec round-trip, all three syntactic classes at once, by induction on
the fuel: parsing serialized output recovers the value exactly, for
well-formed values (distinct keys), whenever the remainder starts with a
delimiter.  The fuel bound `length < fuel` always holds at the top level
because `Json.loads` budgets one unit of fuel per input character. -/
theorem rt_all : ∀ fuel : Nat,
    (∀ (j : Json) (rest : List Char), Json.wf j = true → (dumpV j).length < fuel →
      Delim rest → parseValue fuel (dumpV j ++ rest) = some (j, rest)) ∧
    (∀ (e : Json) (tl : List Json) (rest : List Char), wfElems (e :: tl) = true →
      (dumpV e ++ dumpElems tl).length + 1 < fuel → Delim rest →
      parseElems fuel (dumpV e ++ (dumpElems tl ++ ']' :: rest)) = some (e :: tl, rest)) ∧
    (∀ (k : String) (v : Json) (tl : List (String × Json)) (rest : List Char),
      wfMembers ((k, v) :: tl) = true →
      (dumpMem (k, v) ++ dumpMembers tl).length + 1 < fuel → Delim rest →
      parseMembers fuel (dumpMem (k, v) ++ (dumpMembers tl ++ '}' :: rest))
        = some ((k, v) :: tl, rest)) := by
  intro fuel
  induction fuel with
  | zero =>
    refine ⟨?_, ?_, ?_⟩
    · intro j rest _ hf _
      exact absurd hf (Nat.not_lt_zero _)
    · intro e tl rest _ hf _
      exact absurd hf (Nat.not_lt_zero _)
    · intro k v tl rest _ hf _
      exact absurd hf (Nat.not_lt_zero _)
  | succ f ih =>
    obtain ⟨ihV, ihE, ihM⟩ := ih
    refine ⟨?_, ?_, ?_⟩
    · intro j rest hwf hf hr
      cases j with
      | null =>
        rw [show dumpV .null ++ rest = 'n' :: 'u' :: 'l' :: 'l' :: rest from rfl]
        exact parseValue_null_step f rest
      | bool b =>
        cases b with
        | true =>
          rw [show dumpV (.bool true) ++ rest = 't' :: 'r' :: 'u' :: 'e' :: rest from rfl]
          exact parseValue_true_step f rest
        | false =>
          rw [show dumpV (.bool false) ++ rest = 'f' :: 'a' :: 'l' :: 's' :: 'e' :: rest from rfl]
          exact parseValue_false_step f rest
      | num i =>
        rw [show dumpV (.num i) = intDump i from rfl]
        exact parseValue_num f i rest hr
      | str s =>
        rw [show dumpV (.str s) = '"' :: (escChars s.data ++ ['"']) from rfl]
        rw [List.cons_append, List.append_assoc, List.singleton_append]
        rw [parseValue_str_step, parseStringBody_escape]
      | arr es =>
        cases es with
        | nil =>
          rw [show dumpV (.arr []) ++ rest = '[' :: (']' :: rest) from rfl]
          rw [parseValue_arr_step, skipWs_cons_not ']' rest (by decide)]
          rfl
        | cons e tl =>
          rw [show dumpV (.arr (e :: tl)) = '[' :: (dumpV e ++ dumpElems tl ++ [']']) from rfl]
          rw [List.cons_append, List.append_assoc, List.append_assoc, List.singleton_append]
          rw [parseValue_arr_step]
          rw [← List.append_assoc (dumpV e)]
          rw [show (dumpV e ++ dumpElems tl) ++ ']' :: rest
              = dumpV e ++ (dumpElems tl ++ ']' :: rest) from List.append_assoc _ _ _]
          rw [skipWs_dumpV e (dumpElems tl ++ ']' :: rest)]
          obtain ⟨c, t, hd, hws, hbr, hbc⟩ := dumpV_head e
          rw [hd, List.cons_append, match_arr_tail f c _ hbr, ← List.cons_append, ← hd]
          rw [ihE e tl rest (by rw [wf_arr_eq] at hwf; exact hwf) ?len hr]
          case len =>
            rw [show dumpV (.arr (e :: tl)) = '[' :: (dumpV e ++ dumpElems tl ++ [']']) from rfl]
              at hf
            simp only [List.length_cons, List.length_append, List.length_singleton] at hf ⊢
            omega
      | obj ms =>
        cases ms with
        | nil =>
          rw [show dumpV (.obj []) ++ rest = '{' :: ('}' :: rest) from rfl]
          rw [parseValue_obj_step, skipWs_cons_not '}' rest (by decide)]
          rfl
        | cons m tl =>
          obtain ⟨k, v⟩ := m
          rw [show dumpV (.obj ((k, v) :: tl))
              = '{' :: (dumpMem (k, v) ++ dumpMembers tl ++ ['}']) from rfl]
          rw [List.cons_append, List.append_assoc, List.append_assoc, List.singleton_append]
          rw [parseValue_obj_step]
          rw [← List.append_assoc (dumpMem (k, v))]
          rw [show (dumpMem (k, v) ++ dumpMembers tl) ++ '}' :: rest
              = dumpMem (k, v) ++ (dumpMembers tl ++ '}' :: rest) from List.append_assoc _ _ _]
          rw [dumpMem_cons, List.cons_append, skipWs_cons_not '"' _ (by decide)]
          rw [match_obj_tail f '"' _ (by decide)]
          rw [← List.cons_append, ← dumpMem_cons]
          have hwfm : wfMembers ((k, v) :: tl) = true := by rw [wf_obj_eq] at hwf; exact hwf
          rw [ihM k v tl rest hwfm ?lenm hr]
          case lenm =>
            rw [show dumpV (.obj ((k, v) :: tl))
                = '{' :: (dumpMem (k, v) ++ dumpMembers tl ++ ['}']) from rfl] at hf
            simp only [List.length_cons, List.length_append, List.length_singleton] at hf ⊢
            omega
          show some (Json.obj (insFold [] ((k, v) :: tl)), rest) = some (Json.obj ((k, v) :: tl), rest)
          rw [insFold_nil_of_nodup _ hwfm]
    · intro e tl rest hwf hf hr
      rw [parseElems_step]
      have hwfe : Json.wf e = true := by
        rw [wfElems_cons_eq] at hwf
        exact (Bool.and_eq_true _ _ |>.mp hwf).1
      have hwtl : wfElems tl = true := by
        rw [wfElems_cons_eq] at hwf
        exact (Bool.and_eq_true _ _ |>.mp hwf).2
      rw [ihV e (dumpElems tl ++ ']' :: rest) hwfe ?lene (delim_elems_tail tl rest)]
      case lene =>
        simp only [List.length_append] at hf
        omega
      show (match skipWs (dumpElems tl ++ ']' :: rest) with
            | ',' :: r2 =>
              match parseElems f (skipWs r2) with
              | some (es, r3) => some (e :: es, r3)
              | none => none
            | ']' :: r2 => some ([e], r2)
            | _ => none) = some (e :: tl, rest)
      cases tl with
      | nil =>
        rw [show dumpElems [] ++ ']' :: rest = ']' :: rest from rfl]
        rw [skipWs_cons_not ']' rest (by decide)]
        rfl
      | cons e2 tl2 =>
        rw [show dumpElems (e2 :: tl2) ++ ']' :: rest
            = ',' :: ' ' :: (dumpV e2 ++ dumpElems tl2 ++ ']' :: rest) from by
          rw [show dumpElems (e2 :: tl2) = ',' :: ' ' :: (dumpV e2 ++ dumpElems tl2) from rfl]
          simp [List.append_assoc]]
        rw [skipWs_cons_not ',' _ (by decide)]
        show (match parseElems f (skipWs (' ' :: (dumpV e2 ++ dumpElems tl2 ++ ']' :: rest))) with
              | some (es, r3) => some (e :: es, r3)
              | none => none) = some (e :: e2 :: tl2, rest)
        rw [skipWs_cons_ws ' ' _ (by decide), List.append_assoc, skipWs_dumpV e2 _]
        rw [ihE e2 tl2 rest hwtl ?lene2 hr]
        case lene2 =>
          simp only [List.length_append, List.length_cons] at hf ⊢
          have h2 : (dumpElems (e2 :: tl2)).length
              = ((',' :: ' ' :: (dumpV e2 ++ dumpElems tl2) : List Char)).length := by
            rw [show dumpElems (e2 :: tl2) = ',' :: ' ' :: (dumpV e2 ++ dumpElems tl2) from rfl]
          simp only [List.length_cons, List.length_append] at h2
          omega
    · intro k v tl rest hwf hf hr
      rw [parseMembers_step]
      rw [dumpMem_cons, List.cons_append]
      show (match parseStringBody
              (escChars k.data ++ '"' :: ':' :: ' ' :: dumpV v ++ (dumpMembers tl ++ '}' :: rest)) with
            | none => none
            | some (kChars, r1) =>
              match skipWs r1 with
              | ':' :: r2 =>
                match parseValue f (skipWs r2) with
                | none => none
                | some (v2, r3) =>
                  match skipWs r3 with
                  | ',' :: r4 =>
                    match parseMembers f (skipWs r4) with
                    | some (ms, r5) => some ((⟨kChars⟩, v2) :: ms, r5)
                    | none => none
                  | '}' :: r4 => some ([(⟨kChars⟩, v2)], r4)
                  | _ => none
              | _ => none) = some ((k, v) :: tl, rest)
      rw [show escChars k.data ++ '"' :: ':' :: ' ' :: dumpV v ++ (dumpMembers tl ++ '}' :: rest)
          = escChars k.data ++ '"' :: (':' :: ' ' :: (dumpV v ++ (dumpMembers tl ++ '}' :: rest)))
          from by simp [List.append_assoc]]
      rw [parseStringBody_escape]
      show (match skipWs (':' :: ' ' :: (dumpV v ++ (dumpMembers tl ++ '}' :: rest))) with
            | ':' :: r2 =>
              match parseValue f (skipWs r2) with
              | none => none
              | some (v2, r3) =>
                match skipWs r3 with
                | ',' :: r4 =>
                  match parseMembers f (skipWs r4) with
                  | some (ms, r5) => some ((⟨k.data⟩, v2) :: ms, r5)
                  | none => none
                | '}' :: r4 => some ([(⟨k.data⟩, v2)], r4)
                | _ => none
            | _ => none) = some ((k, v) :: tl, rest)
      rw [skipWs_cons_not ':' _ (by decide)]
      show (match parseValue f (skipWs (' ' :: (dumpV v ++ (dumpMembers tl ++ '}' :: rest)))) with
            | none => none
            | some (v2, r3) =>
              match skipWs r3 with
              | ',' :: r4 =>
                match parseMembers f (skipWs r4) with
                | some (ms, r5) => some ((⟨k.data⟩, v2) :: ms, r5)
                | none => none
              | '}' :: r4 => some ([(⟨k.data⟩, v2)], r4)
              | _ => none) = some ((k, v) :: tl, rest)
      rw [skipWs_cons_ws ' ' _ (by decide), skipWs_dumpV v _]
      have hwfv : Json.wf v = true := by
        rw [wfMembers_cons_eq] at hwf
        simp only [Bool.and_eq_true] at hwf
        exact hwf.1.2
      rw [ihV v (dumpMembers tl ++ '}' :: rest) hwfv ?lenv (delim_members_tail tl rest)]
      case lenv =>
        rw [dumpMem_cons] at hf
        simp only [List.length_append, List.length_cons] at hf ⊢
        omega
      show (match skipWs (dumpMembers tl ++ '}' :: rest) with
            | ',' :: r4 =>
              match parseMembers f (skipWs r4) with
              | some (ms, r5) => some ((⟨k.data⟩, v) :: ms, r5)
              | none => none
            | '}' :: r4 => some ([(⟨k.data⟩, v)], r4)
            | _ => none) = some ((k, v) :: tl, rest)
      cases tl with
      | nil =>
        rw [show dumpMembers ([] : List (String × Json)) ++ '}' :: rest = '}' :: rest from rfl]
        rw [skipWs_cons_not '}' rest (by decide)]
        rfl
      | cons m2 tl2 =>
        obtain ⟨k2, v2⟩ := m2
        rw [show dumpMembers ((k2, v2) :: tl2) ++ '}' :: rest
            = ',' :: ' ' :: (dumpMem (k2, v2) ++ (dumpMembers tl2 ++ '}' :: rest)) from by
          rw [show dumpMembers ((k2, v2) :: tl2)
              = ',' :: ' ' :: (dumpMem (k2, v2) ++ dumpMembers tl2) from rfl]
          simp [List.append_assoc]]
        rw [skipWs_cons_not ',' _ (by decide)]
        show (match parseMembers f
                (skipWs (' ' :: (dumpMem (k2, v2) ++ (dumpMembers tl2 ++ '}' :: rest)))) with
              | some (ms, r5) => some ((⟨k.data⟩, v) :: ms, r5)
              | none => none) = some ((k, v) :: (k2, v2) :: tl2, rest)
        rw [skipWs_cons_ws ' ' _ (by decide)]
        rw [show skipWs (dumpMem (k2, v2) ++ (dumpMembers tl2 ++ '}' :: rest))
            = dumpMem (k2, v2) ++ (dumpMembers tl2 ++ '}' :: rest) from by
          rw [dumpMem_cons, List.cons_append]
          exact skipWs_cons_not '"' _ (by decide)]
        have hwtl : wfMembers ((k2, v2) :: tl2) = true := by
          rw [wfMembers_cons_eq] at hwf
          simp only [Bool.and_eq_true] at hwf
          exact hwf.2
        rw [ihM k2 v2 tl2 rest hwtl ?lenm2 hr]
        case lenm2 =>
          have h2 : (dumpMembers ((k2, v2) :: tl2)).length
              = 2 + (dumpMem (k2, v2)).length + (dumpMembers tl2).length := by
            rw [show dumpMembers ((k2, v2) :: tl2)
                = ',' :: ' ' :: (dumpMem (k2, v2) ++ dumpMembers tl2) from rfl]
            simp only [List.length_cons, List.length_append]
            omega
          simp only [List.length_append] at hf ⊢
          omega

theorem rt_value (fuel : Nat) (j : Json) (rest : List Char) (h1 : Json.wf j = true)
    (h2 : (dumpV j).length < fuel) (h3 : Delim rest) :
    parseValue fuel (dumpV j ++ rest) = some (j, rest) :=
  (rt_all fuel).1 j rest h1 h2 h3

/-- Parsing the serialized form of a well-formed value, newline-terminated as
the script writes it, recovers the value. -/
theorem loads_dumps (j : Json) (h : Json.wf j = true) :
    Json.loads (Json.dumps j ++ "\n") = some j := by
  have hd : (Json.dumps j ++ "\n").data = dumpV j ++ ['\n'] := by
    rw [String.data_append]
    rfl
  simp only [Json.loads, hd]
  rw [skipWs_dumpV j ['\n']]
  rw [rt_value ((dumpV j ++ ['\n']).length) j ['\n'] h (by simp) (delim_newline [])]
  simp [skipWs, isJsonWs]

theorem parseValue_succ (f : Nat) (cs : List Char) :
    parseValue (f + 1) cs
      = (match cs with
         | 'n' :: 'u' :: 'l' :: 'l' :: r => some (.null, r)
         | 't' :: 'r' :: 'u' :: 'e' :: r => some (.bool true, r)
         | 'f' :: 'a' :: 'l' :: 's' :: 'e' :: r => some (.bool false, r)
         | '"' :: r =>
           match parseStringBody r with
           | some (chars, r2) => some (.str ⟨chars⟩, r2)
           | none => none
         | '[' :: r =>
           match skipWs r with
           | ']' :: r2 => some (.arr [], r2)
           | r2 =>
             match parseElems f r2 with
             | some (es, r3) => some (.arr es, r3)
             | none => none
         | '{' :: r =>
           match skipWs r with
           | '}' :: r2 => some (.obj [], r2)
           | r2 =>
             match parseMembers f r2 with
             | some (ms, r3) => some (.obj (insFold [] ms), r3)
             | none => none
         | '-' :: r =>
           match takeDigits r with
           | ([], _) => none
           | (d :: ds, r2) => numTail true (d :: ds) r2
         | c :: r =>
           if c.isDigit then
             match takeDigits (c :: r) with
             | (ds, r2) => numTail false ds r2
           else none
         | [] => none) := rfl

theorem numTail_wf (neg : Bool) (ds r2 : List Char) (j : Json) (r : List Char)
    (h : numTail neg ds r2 = some (j, r)) : Json.wf j = true := by
  rw [numTail.eq_def] at h
  split at h
  · cases h
  · cases h
  · cases h
  · simp only [Option.some.injEq, Prod.mk.injEq] at h
    obtain ⟨rfl, rfl⟩ := h
    rfl

/-- Everything the scanner accepts is well-formed: objects are built with
`insFold`, which keeps keys distinct. -/
theorem parse_wf : ∀ fuel : Nat,
    (∀ (cs : List Char) (j : Json) (r : List Char),
      parseValue fuel cs = some (j, r) → Json.wf j = true) ∧
    (∀ (cs : List Char) (es : List Json) (r : List Char),
      parseElems fuel cs = some (es, r) → wfElems es = true) ∧
    (∀ (cs : List Char) (ms : List (String × Json)) (r : List Char),
      parseMembers fuel cs = some (ms, r) → ∀ m ∈ ms, Json.wf m.2 = true) := by
  intro fuel
  induction fuel with
  | zero =>
    refine ⟨?_, ?_, ?_⟩
    · intro cs j r h
      rw [show parseValue 0 cs = none from rfl] at h
      cases h
    · intro cs es r h
      rw [show parseElems 0 cs = none from rfl] at h
      cases h
    · intro cs ms r h
      rw [show parseMembers 0 cs = none from rfl] at h
      cases h
  | succ f ih =>
    obtain ⟨ihV, ihE, ihM⟩ := ih
    refine ⟨?_, ?_, ?_⟩
    · intro cs j r h
      rw [parseValue_succ] at h
      repeat' split at h
      all_goals
        first
        | exact Option.noConfusion h
        | exact numTail_wf _ _ _ _ _ h
        | (simp only [Option.some.injEq, Prod.mk.injEq] at h
           obtain ⟨rfl, rfl⟩ := h
           first
           | exact rfl
           | (rw [wf_arr_eq]; exact ihE _ _ _ (by assumption))
           | (rw [wf_obj_eq]
              exact insFold_wf _ [] rfl (ihM _ _ _ (by assumption))))
    · intro cs es r h
      rw [parseElems_step] at h
      repeat' split at h
      all_goals
        first
        | exact Option.noConfusion h
        | (simp only [Option.some.injEq, Prod.mk.injEq] at h
           obtain ⟨rfl, rfl⟩ := h
           first
           | (rw [wfElems_cons_eq]
              simp only [Bool.and_eq_true]
              exact ⟨ihV _ _ _ (by assumption), ihE _ _ _ (by assumption)⟩)
           | (rw [wfElems_cons_eq]
              simp only [Bool.and_eq_true]
              exact ⟨ihV _ _ _ (by assumption), rfl⟩))
    · intro cs ms r h
      rw [parseMembers_step] at h
      repeat' split at h
      all_goals
        first
        | exact Option.noConfusion h
        | (simp only [Option.some.injEq, Prod.mk.injEq] at h
           obtain ⟨rfl, rfl⟩ := h
           intro m hm
           first
           | (rcases List.mem_cons.mp hm with rfl | hm2
              · exact ihV _ _ _ (by assumption)
              · exact ihM _ _ _ (by assumption) m hm2)
           | (rw [List.mem_singleton] at hm
              subst hm
              exact ihV _ _ _ (by assumption)))

theorem loads_wf (s : String) (j : Json) (h : Json.loads s = some j) :
    Json.wf j = true := by
  simp only [Json.loads] at h
  split at h
  · rename_i j2 r heq
    split at h
    · injection h with h2
      subst h2
      exact (parse_wf _).1 _ _ _ heq
    · cases h
  · cases h

theorem roundTripLine_of_wf (j : Json) (h : Json.wf j = true) :
    roundTripLine (Json.dumps j ++ "\n") = true := by
  simp [roundTripLine, loads_dumps j h]

/-! ### Output lines of the loop (C6) -/

theorem processLine_out_mem (gen : String → Except GenError Json) (verbosity n : Nat)
    (raw : String) (acc : BatchAcc) (l : String)
    (h : l ∈ (processLine gen verbosity n raw acc).out) :
    l ∈ acc.out ∨ GoodOut gen l := by
  by_cases hne : pyStrip raw = ""
  · left
    simpa [processLine, hne] using h
  · cases hload : Json.loads (pyStrip raw) with
    | none =>
      left
      simpa [processLine, hne, hload] using h
    | some data =>
      cases data with
      | obj ms =>
        cases hlk : lookupKey ms "text" with
        | none =>
          left
          simpa [processLine, hne, hload, hlk] using h
        | some t =>
          cases t with
          | str s =>
            by_cases hs : pyStrip s = ""
            · left
              simpa [processLine, hne, hload, hlk, hs] using h
            · cases hg : gen s with
              | error e =>
                left
                simpa [processLine, hne, hload, hlk, hs, hg] using h
              | ok alt =>
                simp only [processLine, hne, hload, hlk, hs, hg, if_false,
                  List.mem_append, List.mem_singleton] at h
                rcases h with h2 | h2
                · exact Or.inl h2
                · right
                  refine ⟨ms, alt, s, ?_, hg, h2⟩
                  exact loads_wf _ _ hload
          | null =>
            left
            simpa [processLine, hne, hload, hlk] using h
          | bool b =>
            left
            simpa [processLine, hne, hload, hlk] using h
          | num i =>
            left
            simpa [processLine, hne, hload, hlk] using h
          | arr es2 =>
            left
            simpa [processLine, hne, hload, hlk] using h
          | obj ms2 =>
            left
            simpa [processLine, hne, hload, hlk] using h
      | arr es =>
        left
        cases hb : elemsHaveTextStr es <;>
          simpa [processLine, hne, hload, hb] using h
      | str s2 =>
        left
        cases hb : strContainsText s2 <;>
          simpa [processLine, hne, hload, hb] using h
      | null =>
        left
        simpa [processLine, hne, hload] using h
      | bool b =>
        left
        simpa [processLine, hne, hload] using h
      | num i =>
        left
        simpa [processLine, hne, hload] using h

theorem runLines_out_mem (gen : String → Except GenError Json) (verbosity : Nat) :
    ∀ (lines : List String) (n : Nat) (acc : BatchAcc) (l : String),
      l ∈ (runLines gen verbosity n lines acc).out → l ∈ acc.out ∨ GoodOut gen l := by
  intro lines
  induction lines with
  | nil =>
    intro n acc l h
    exact Or.inl h
  | cons raw rest ih =>
    intro n acc l h
    rcases ih (n + 1) (processLine gen verbosity n raw acc) l h with h3 | h3
    · exact processLine_out_mem gen verbosity n raw acc l h3
    · exact Or.inr h3

/-- C6: every output line the batch writes decodes as JSON, and re-encoding
the decoded record with the same serializer settings (then terminating with
the line's newline) reproduces the line byte for byte: key order and escaping
are stable under the round-trip.  The generator is assumed to hand back
Python-representable values (distinct dict keys), which `Json.wf` captures. -/
theorem C6_output_roundtrip (gen : String → Except GenError Json) (inputExists : Bool)
    (api_key : String) (verbosity : Nat) (lines : List String) (acc : BatchAcc)
    (hwf : ∀ (s : String) (j : Json), gen s = .ok j → Json.wf j = true)
    (hrun : process_jsonl_file gen inputExists api_key verbosity lines = .ok acc) :
    ∀ l ∈ acc.out, roundTripLine l = true := by
  intro l hl
  have hout : acc.out = (runLines gen verbosity 1 lines ⟨0, 0, [], []⟩).out := by
    simp only [process_jsonl_file] at hrun
    split at hrun
    · cases hrun
    · split at hrun
      · cases hrun
      · injection hrun with h2
        subst h2
        rfl
  rw [hout] at hl
  rcases runLines_out_mem gen verbosity lines 1 ⟨0, 0, [], []⟩ l hl with h3 | h3
  · exact absurd h3 (List.not_mem_nil l)
  · obtain ⟨ms, alt, s, hms, hg, rfl⟩ := h3
    have halt : Json.wf alt = true := hwf s alt hg
    have hok : Json.wf (.obj (insertAssign ms "alt" alt)) = true := by
      rw [wf_obj_eq]
      refine insertAssign_wfMembers ms "alt" alt ?_ halt
      rw [wf_obj_eq] at hms
      exact hms
    exact roundTripLine_of_wf _ hok

theorem C6_witness :
    roundTripLine "\x7b\"text\": \"a\", \"alt\": \"x\"\x7d\n" = true := by
  have h := C6_output_roundtrip (fun _ => .ok (.str "x")) true "k" 1
    ["\x7b\"text\": \"a\"\x7d"]
    ⟨1, 0, ["\x7b\"text\": \"a\", \"alt\": \"x\"\x7d\n"], [Msg.summary 1 0]⟩
    (fun s j hj => by cases hj; rfl) rfl
  exact h _ (List.mem_singleton.mpr rfl)

/-! ### No newline inside a serialized record (C7) -/

theorem digitCh_ne_nl (m : Nat) : ¬ digitCh m = '\n' := by
  by_cases hm : m < 16
  · interval_cases m <;> decide
  · have H : ∀ k, k < 16 → ¬ m = k := by omega
    intro h
    unfold digitCh at h
    rw [if_neg (H 0 (by norm_num)), if_neg (H 1 (by norm_num)), if_neg (H 2 (by norm_num)), if_neg (H 3 (by norm_num)), if_neg (H 4 (by norm_num)), if_neg (H 5 (by norm_num)), if_neg (H 6 (by norm_num)), if_neg (H 7 (by norm_num)), if_neg (H 8 (by norm_num)), if_neg (H 9 (by norm_num)), if_neg (H 10 (by norm_num)), if_neg (H 11 (by norm_num)), if_neg (H 12 (by norm_num)), if_neg (H 13 (by norm_num)), if_neg (H 14 (by norm_num)), if_neg (H 15 (by norm_num))] at h
    exact absurd h (by decide)

theorem escapeChar_no_nl (c : Char) (h : '\n' ∈ escapeChar c) : False := by
  by_cases h1 : c = '"'
  · rw [h1] at h
    exact absurd h (by decide)
  · by_cases h2 : c = '\\'
    · rw [h2] at h
      exact absurd h (by decide)
    · by_cases h3 : c.toNat < 32
      · by_cases hb : c = '\x08'
        · rw [hb] at h
          exact absurd h (by decide)
        · by_cases ht2 : c = '\t'
          · rw [ht2] at h
            exact absurd h (by decide)
          · by_cases hn2 : c = '\n'
            · rw [hn2] at h
              exact absurd h (by decide)
            · by_cases hf2 : c = '\x0c'
              · rw [hf2] at h
                exact absurd h (by decide)
              · by_cases hr2 : c = '\r'
                · rw [hr2] at h
                  exact absurd h (by decide)
                · rw [escapeChar_control c h3 hb ht2 hn2 hf2 hr2] at h
                  simp only [List.mem_cons, List.mem_singleton, List.not_mem_nil,
                    or_false] at h
                  rcases h with h | h | h | h | h | h
                  · exact absurd h (by decide)
                  · exact absurd h (by decide)
                  · exact absurd h (by decide)
                  · exact absurd h (by decide)
                  · exact digitCh_ne_nl _ h.symm
                  · exact digitCh_ne_nl _ h.symm
      · rw [show escapeChar c = [c] from by simp [escapeChar, h1, h2, h3]] at h
        rw [List.mem_singleton] at h
        rw [← h] at h3
        exact h3 (by decide)

theorem escChars_no_nl (cs : List Char) (h : '\n' ∈ escChars cs) : False := by
  induction cs with
  | nil => simp [escChars] at h
  | cons c tl ih =>
    rw [show escChars (c :: tl) = escapeChar c ++ escChars tl from rfl,
      List.mem_append] at h
    rcases h with h | h
    · exact escapeChar_no_nl c h
    · exact ih h

theorem natDigits_no_nl (m : Nat) (h : '\n' ∈ natDigits m) : False := by
  have hd := natDigits_digits m '\n' h
  exact absurd hd (by decide)

theorem intDump_no_nl (i : Int) (h : '\n' ∈ intDump i) : False := by
  unfold intDump at h
  split at h
  · rw [List.mem_cons] at h
    rcases h with h | h
    · exact absurd h (by decide)
    · exact natDigits_no_nl _ h
  · exact natDigits_no_nl _ h

mutual
theorem dumpV_no_nl : ∀ j : Json, '\n' ∈ dumpV j → False
  | .null => fun h => by exact absurd h (by decide)
  | .bool true => fun h => by exact absurd h (by decide)
  | .bool false => fun h => by exact absurd h (by decide)
  | .num i => fun h => intDump_no_nl i h
  | .str s => fun h => by
    rw [show dumpV (.str s) = '"' :: (escChars s.data ++ ['"']) from rfl] at h
    rw [List.mem_cons, List.mem_append] at h
    rcases h with h | h | h
    · exact absurd h (by decide)
    · exact escChars_no_nl _ h
    · exact absurd h (by decide)
  | .arr [] => fun h => by exact absurd h (by decide)
  | .arr (e :: tl) => fun h => by
    rw [show dumpV (.arr (e :: tl)) = '[' :: (dumpV e ++ dumpElems tl ++ [']']) from rfl] at h
    rw [List.mem_cons, List.mem_append, List.mem_append] at h
    rcases h with h | (h | h) | h
    · exact absurd h (by decide)
    · exact dumpV_no_nl e h
    · exact dumpElems_no_nl tl h
    · exact absurd h (by decide)
  | .obj [] => fun h => by exact absurd h (by decide)
  | .obj (m :: tl) => fun h => by
    rw [show dumpV (.obj (m :: tl)) = '{' :: (dumpMem m ++ dumpMembers tl ++ ['}']) from rfl]
      at h
    rw [List.mem_cons, List.mem_append, List.mem_append] at h
    rcases h with h | (h | h) | h
    · exact absurd h (by decide)
    · exact dumpMem_no_nl m h
    · exact dumpMembers_no_nl tl h
    · exact absurd h (by decide)
theorem dumpElems_no_nl : ∀ es : List Json, '\n' ∈ dumpElems es → False
  | [] => fun h => by exact absurd h (by decide)
  | e :: tl => fun h => by
    rw [show dumpElems (e :: tl) = ',' :: ' ' :: (dumpV e ++ dumpElems tl) from rfl] at h
    rw [List.mem_cons, List.mem_cons, List.mem_append] at h
    rcases h with h | h | h | h
    · exact absurd h (by decide)
    · exact absurd h (by decide)
    · exact dumpV_no_nl e h
    · exact dumpElems_no_nl tl h
theorem dumpMem_no_nl : ∀ m : String × Json, '\n' ∈ dumpMem m → False
  | (k, v) => fun h => by
    rw [dumpMem_cons, List.mem_cons, List.mem_append] at h
    rcases h with h | h | h
    · exact absurd h (by decide)
    · exact escChars_no_nl _ h
    · rw [List.mem_cons, List.mem_cons, List.mem_cons] at h
      rcases h with h | h | h | h
      · exact absurd h (by decide)
      · exact absurd h (by decide)
      · exact absurd h (by decide)
      · exact dumpV_no_nl v h
theorem dumpMembers_no_nl : ∀ ms : List (String × Json), '\n' ∈ dumpMembers ms → False
  | [] => fun h => by exact absurd h (by decide)
  | m :: tl => fun h => by
    rw [show dumpMembers (m :: tl) = ',' :: ' ' :: (dumpMem m ++ dumpMembers tl) from rfl] at h
    rw [List.mem_cons, List.mem_cons, List.mem_append] at h
    rcases h with h | h | h | h
    · exact absurd h (by decide)
    · exact absurd h (by decide)
    · exact dumpMem_no_nl m h
    · exact dumpMembers_no_nl tl h
end

/-- C7: the serializer passes non-ASCII characters through verbatim (no
ASCII-safe escaping); every written line is a serialized record terminated by
exactly one newline — the serialized record itself contains none, so there is
no separator beyond the terminator; and the documented scenario holds: the
record `\x7b"text": "Hun går til skolen"\x7d` with the generator returning
the alternatives string produces exactly the documented output line. -/
theorem C7_serialization_format :
    (∀ c : Char, 128 ≤ c.toNat → escapeChar c = [c]) ∧
    (∀ (gen : String → Except GenError Json) (inputExists : Bool) (api_key : String)
        (verbosity : Nat) (lines : List String) (acc : BatchAcc),
      process_jsonl_file gen inputExists api_key verbosity lines = .ok acc →
      ∀ l ∈ acc.out, ∃ s : String, l = s ++ "\n" ∧ ('\n' ∈ s.data → False)) ∧
    accOut (process_jsonl_file
        (fun _ => .ok (.str "Hun går til skolen|Hun gikk til skolen")) true "k" 1
        ["\x7b\"text\": \"Hun går til skolen\"\x7d"])
      = some ["\x7b\"text\": \"Hun går til skolen\", \"alt\": \"Hun går til skolen|Hun gikk til skolen\"\x7d\n"] := by
  refine ⟨?_, ?_, rfl⟩
  · intro c hc
    have h1 : ¬ c = '"' := by
      intro hh
      subst hh
      exact absurd hc (by decide)
    have h2 : ¬ c = '\\' := by
      intro hh
      subst hh
      exact absurd hc (by decide)
    have h3 : ¬ c.toNat < 32 := by omega
    simp [escapeChar, h1, h2, h3]
  · intro gen inputExists api_key verbosity lines acc hrun l hl
    have hout : acc.out = (runLines gen verbosity 1 lines ⟨0, 0, [], []⟩).out := by
      simp only [process_jsonl_file] at hrun
      split at hrun
      · cases hrun
      · split at hrun
        · cases hrun
        · injection hrun with h2
          subst h2
          rfl
    rw [hout] at hl
    rcases runLines_out_mem gen verbosity lines 1 ⟨0, 0, [], []⟩ l hl with h3 | h3
    · exact absurd h3 (List.not_mem_nil l)
    · obtain ⟨ms, alt, s, _, _, rfl⟩ := h3
      refine ⟨Json.dumps (.obj (insertAssign ms "alt" alt)), rfl, ?_⟩
      intro hnl
      exact dumpV_no_nl _ hnl

theorem C7_witness :
    escapeChar 'å' = ['å'] ∧
    (∃ s : String, "\x7b\"text\": \"a\", \"alt\": \"x\"\x7d\n" = s ++ "\n"
      ∧ ('\n' ∈ s.data → False)) := by
  constructor
  · exact C7_serialization_format.1 'å' (by decide)
  · exact C7_serialization_format.2.1 (fun _ => .ok (.str "x")) true "k" 1
      ["\x7b\"text\": \"a\"\x7d"]
      ⟨1, 0, ["\x7b\"text\": \"a\", \"alt\": \"x\"\x7d\n"], [Msg.summary 1 0]⟩ rfl
      _ (List.mem_singleton.mpr rfl)

/-! ### Blank lines and the summary gate (C9) -/

theorem msgs_step_aux (m : Msg) (base : List Msg) (c : Prop) [inst : Decidable c] (x : Msg)
    (hx : isSummaryMsg x = false)
    (h : m ∈ base ++ (if c then [x] else [])) : m ∈ base ∨ isSummaryMsg m = false := by
  rw [List.mem_append] at h
  rcases h with h | h
  · exact Or.inl h
  · right
    split at h
    · rw [List.mem_singleton] at h
      rw [h]
      exact hx
    · exact absurd h (List.not_mem_nil m)

theorem msgs_step_aux2 (m : Msg) (base : List Msg) (c d : Prop) [Decidable c] [Decidable d]
    (x y : Msg) (hx : isSummaryMsg x = false) (hy : isSummaryMsg y = false)
    (h : m ∈ (base ++ (if c then [x] else [])) ++ (if d then [y] else [])) :
    m ∈ base ∨ isSummaryMsg m = false := by
  rcases msgs_step_aux m (base ++ (if c then [x] else [])) d y hy h with h2 | h2
  · exact msgs_step_aux m base c x hx h2
  · exact Or.inr h2

theorem processLine_msgs_no_summary (gen : String → Except GenError Json)
    (verbosity n : Nat) (raw : String) (acc : BatchAcc) (m : Msg)
    (h : m ∈ (processLine gen verbosity n raw acc).msgs) :
    m ∈ acc.msgs ∨ isSummaryMsg m = false := by
  by_cases hne : pyStrip raw = ""
  · left
    simpa [processLine, hne] using h
  · cases hload : Json.loads (pyStrip raw) with
    | none =>
      simp only [processLine, hne, hload, if_false, if_true, eq_self_iff_true] at h
      exact msgs_step_aux m acc.msgs _ _ (by rfl) h
    | some data =>
      cases data with
      | obj ms =>
        cases hlk : lookupKey ms "text" with
        | none =>
          simp only [processLine, hne, hload, hlk, if_false, if_true, eq_self_iff_true] at h
          exact msgs_step_aux m acc.msgs _ _ (by rfl) h
        | some t =>
          cases t with
          | str s =>
            by_cases hs : pyStrip s = ""
            · simp only [processLine, hne, hload, hlk, hs, if_false, if_true,
                eq_self_iff_true] at h
              exact msgs_step_aux m acc.msgs _ _ (by rfl) h
            · cases hg : gen s with
              | error e =>
                simp only [processLine, hne, hload, hlk, hs, hg, if_false, if_true,
                  eq_self_iff_true] at h
                exact msgs_step_aux2 m acc.msgs _ _ _ _ (by rfl) (by rfl) h
              | ok alt =>
                simp only [processLine, hne, hload, hlk, hs, hg, if_false, if_true,
                  eq_self_iff_true] at h
                exact msgs_step_aux2 m acc.msgs _ _ _ _ (by rfl) (by rfl) h
          | null =>
            simp only [processLine, hne, hload, hlk, if_false, if_true, eq_self_iff_true] at h
            exact msgs_step_aux m acc.msgs _ _ (by rfl) h
          | bool b =>
            simp only [processLine, hne, hload, hlk, if_false, if_true, eq_self_iff_true] at h
            exact msgs_step_aux m acc.msgs _ _ (by rfl) h
          | num i =>
            simp only [processLine, hne, hload, hlk, if_false, if_true, eq_self_iff_true] at h
            exact msgs_step_aux m acc.msgs _ _ (by rfl) h
          | arr es2 =>
            simp only [processLine, hne, hload, hlk, if_false, if_true, eq_self_iff_true] at h
            exact msgs_step_aux m acc.msgs _ _ (by rfl) h
          | obj ms2 =>
            simp only [processLine, hne, hload, hlk, if_false, if_true, eq_self_iff_true] at h
            exact msgs_step_aux m acc.msgs _ _ (by rfl) h
      | arr es =>
        cases hb : elemsHaveTextStr es <;>
          · simp only [processLine, hne, hload, hb, if_false, if_true,
              eq_self_iff_true, Bool.false_eq_true, Bool.true_eq_false] at h
            exact msgs_step_aux m acc.msgs _ _ (by rfl) h
      | str s2 =>
        cases hb : strContainsText s2 <;>
          · simp only [processLine, hne, hload, hb, if_false, if_true,
              eq_self_iff_true, Bool.false_eq_true, Bool.true_eq_false] at h
            exact msgs_step_aux m acc.msgs _ _ (by rfl) h
      | null =>
        simp only [processLine, hne, hload, if_false, if_true, eq_self_iff_true] at h
        exact msgs_step_aux m acc.msgs _ _ (by rfl) h
      | bool b =>
        simp only [processLine, hne, hload, if_false, if_true, eq_self_iff_true] at h
        exact msgs_step_aux m acc.msgs _ _ (by rfl) h
      | num i =>
        simp only [processLine, hne, hload, if_false, if_true, eq_self_iff_true] at h
        exact msgs_step_aux m acc.msgs _ _ (by rfl) h

theorem runLines_msgs_no_summary (gen : String → Except GenError Json) (verbosity : Nat) :
    ∀ (lines : List String) (n : Nat) (acc : BatchAcc) (m : Msg),
      m ∈ (runLines gen verbosity n lines acc).msgs →
      m ∈ acc.msgs ∨ isSummaryMsg m = false := by
  intro lines
  induction lines with
  | nil =>
    intro n acc m h
    exact Or.inl h
  | cons raw rest ih =>
    intro n acc m h
    rcases ih (n + 1) (processLine gen verbosity n raw acc) m h with h3 | h3
    · exact processLine_msgs_no_summary gen verbosity n raw acc m h3
    · exact Or.inr h3

/-- C9: a line blank after stripping is a `continue` (lines 89-91) — the loop
state is returned unchanged, so no output line is written, no counter moves and
no message is printed for it; and on a completed run the final summary message
reporting the processed and error counts (lines 150-151) is among the printed
messages if and only if the verbosity is at least 1 — at verbosity 0 no summary
appears. -/
theorem C9_blank_lines_and_summary (gen gen2 : String → Except GenError Json)
    (verbosity n : Nat) (raw : String) (acc : BatchAcc)
    (api_key : String) (lines : List String) (acc2 : BatchAcc)
    (hblank : pyStrip raw = "")
    (hrun : process_jsonl_file gen2 true api_key verbosity lines = .ok acc2) :
    processLine gen verbosity n raw acc = acc ∧
    (Msg.summary acc2.processed acc2.errors ∈ acc2.msgs ↔ 1 ≤ verbosity) := by
  constructor
  · simp [processLine, hblank]
  · simp only [process_jsonl_file] at hrun
    split at hrun
    · cases hrun
    · split at hrun
      · cases hrun
      · injection hrun with h2
        subst h2
        show Msg.summary (runLines gen2 verbosity 1 lines ⟨0, 0, [], []⟩).processed
            (runLines gen2 verbosity 1 lines ⟨0, 0, [], []⟩).errors
          ∈ (runLines gen2 verbosity 1 lines ⟨0, 0, [], []⟩).msgs
            ++ (if 1 ≤ verbosity
                then [Msg.summary (runLines gen2 verbosity 1 lines ⟨0, 0, [], []⟩).processed
                  (runLines gen2 verbosity 1 lines ⟨0, 0, [], []⟩).errors] else [])
          ↔ 1 ≤ verbosity
        constructor
        · intro hmem
          rw [List.mem_append] at hmem
          rcases hmem with hm | hm
          · rcases runLines_msgs_no_summary gen2 verbosity lines 1 ⟨0, 0, [], []⟩ _ hm
              with h4 | h4
            · exact absurd h4 (List.not_mem_nil _)
            · exact absurd h4 (by simp [isSummaryMsg])
          · split at hm
            · assumption
            · exact absurd hm (List.not_mem_nil _)
        · intro hv
          rw [if_pos hv]
          exact List.mem_append_right _ (List.mem_singleton.mpr rfl)

theorem C9_witness :
    pyStrip "  " = "" ∧
    (processLine (fun _ => Except.ok (Json.str "x")) 1 7 "  " ⟨1, 2, ["o"], []⟩
        = ⟨1, 2, ["o"], []⟩ ∧
      (Msg.summary 1 0 ∈ [Msg.summary 1 0] ↔ 1 ≤ 1)) := by
  refine ⟨rfl, ?_⟩
  exact C9_blank_lines_and_summary (fun _ => Except.ok (Json.str "x"))
    (fun _ => Except.ok (Json.str "x")) 1 7 "  " ⟨1, 2, ["o"], []⟩ "k"
    ["\x7b\"text\": \"a\"\x7d"]
    ⟨1, 0, ["\x7b\"text\": \"a\", \"alt\": \"x\"\x7d\n"], [Msg.summary 1 0]⟩ rfl rfl
